import Mathlib

/-!
# Verification of the come-through card parser

A shallow embedding, in Lean 4, of the parsing/extraction core of the
come-through flashcard plugin (TypeScript sources under `src/`), together with
theorems settling the frozen claims about it.

Modelling conventions:
* Document text is a `List Char`; byte/UTF-16 offsets become `Nat` indices.
  `String.slice`-style operations become `drop`/`take`.
* JavaScript exceptions are modelled with `Except String`.
* JavaScript objects parsed from YAML are association lists
  (`List (String × YVal)`); key deletion/insertion mirrors the JS operations.
* `parseYaml` / `stringifyYaml` come from the host application (obsidian) and
  are not part of this repository; they are modelled from the spec (§4.1, §6:
  flat `key: value` text) — see `parseYamlM` / `stringifyYamlM`.
* In-place `Array.prototype.sort` calls are modelled with a stable insertion
  sort over the same comparator.
-/

set_option maxRecDepth 4000

deriving instance DecidableEq for Except

namespace CT

/-! ## Character-list string primitives

`String.prototype.trim` / `toLowerCase` and the line/scalar processing are
implemented over the character list by structural recursion (the core `String`
versions are defined by well-founded recursion over byte positions, which the
kernel cannot evaluate, so they would block `decide` witnesses). -/

def trimCh (l : List Char) : List Char :=
  ((l.dropWhile Char.isWhitespace).reverse.dropWhile Char.isWhitespace).reverse

/-- `String.prototype.trim`. -/
def strTrim (s : String) : String := String.mk (trimCh s.data)

/-- `String.prototype.toLowerCase`. -/
def strToLower (s : String) : String := String.mk (s.data.map Char.toLower)

/-! ## FullID (src/FullID.ts) -/

/-- `FullID.sideValues` (src/FullID.ts line 107). -/
def sideValues : List String := ["f", "front", "b", "back"]

/-- `FullID.isSideValid` (src/FullID.ts lines 101-105): JS `!side` is true for
`undefined` and for the empty string. -/
def isSideValidStr : Option String → Bool
  | none => false
  | some side => if side = "" then false else sideValues.contains (strToLower (strTrim side))

/-- The `FullID` value object (src/FullID.ts). `deckIDs` carries the extra data
of the `DeckableFullID` subclass; a plain `FullID` has `deckIDs = []`. -/
structure FullID where
  noteID : String
  cardID : String
  cardSide : Option String
  deckIDs : List String := []
deriving DecidableEq, Repr

/-- The `FullID` constructor (src/FullID.ts lines 14-23). `noteID` is trimmed
with case preserved, `cardID` is trimmed and lower-cased. A supplied side is
validated (throw modelled as `.error`) and stored trimmed/lower-cased; the JS
guard `if (cardSide)` skips validation and storage for the empty string. -/
def FullID.make (noteID cardID : String) (cardSide : Option String) : Except String FullID :=
  let base : FullID := { noteID := strTrim noteID, cardID := strToLower (strTrim cardID), cardSide := none }
  match cardSide with
  | none => .ok base
  | some s =>
    if s = "" then .ok base
    else if isSideValidStr (some s) then .ok { base with cardSide := some (strToLower (strTrim s)) }
    else .error "Invalid value for side"

/-- `FullID.create` (src/FullID.ts lines 25-27): always succeeds since the side
literal is `"f"` or `"b"`. -/
def FullID.create (noteID cardID : String) (isFrontSide : Bool) : FullID :=
  { noteID := strTrim noteID
    cardID := strToLower (strTrim cardID)
    cardSide := some (if isFrontSide then "f" else "b") }

/-- `FullID.isFrontSide` getter (src/FullID.ts lines 141-146): throws when no
side is set. -/
def FullID.isFrontSide (id : FullID) : Except String Bool :=
  match id.cardSide with
  | none => .error "Side not specified"
  | some s => .ok (s = "f" || s = "front")

/-- `FullID.cardIDOrThrow` (src/FullID.ts lines 123-131): JS `!this.cardID` is
true exactly for the empty string. -/
def FullID.cardIDOrThrow (id : FullID) : Except String String :=
  if id.cardID = "" then .error "missing card ID" else .ok id.cardID

/-- `FullID.isNoteEqual` (src/FullID.ts lines 182-184). -/
def FullID.isNoteEqual (a b : FullID) : Bool := a.noteID = b.noteID

/-- `FullID.isCardEqual` (src/FullID.ts lines 186-188). -/
def FullID.isCardEqual (a b : FullID) : Bool := a.cardID = b.cardID

/-- `FullID.isEqual` (src/FullID.ts lines 173-180), with JS short-circuit
evaluation made explicit (the side getters, which may throw, are only reached
when note and card match and the comparison is side-sensitive). -/
def FullID.isEqual (a b : FullID) (sideInsensitive : Bool) : Except String Bool :=
  if a.cardID = "" || b.cardID = "" then .ok false
  else if ¬ a.isNoteEqual b then .ok false
  else if ¬ a.isCardEqual b then .ok false
  else if sideInsensitive then .ok true
  else do
    let fa ← a.isFrontSide
    let fb ← b.isFrontSide
    .ok (fa == fb)

/-! ### Claim C10 -/

/-- C10: every successfully constructed `FullID` stores `cardID` equal to the
trimmed, lower-cased input and `noteID` trimmed with case preserved; for a
(non-empty) supplied side argument the constructor fails unless the trimmed
lower-cased value is one of `f`, `front`, `b`, `back`, and on success it stores
that normalized side, so `isFrontSide` never throws on it. -/
theorem fullID_constructor_invariants (noteID cardID side : String) (hs : side ≠ "") :
    (∀ fid, FullID.make noteID cardID (some side) = .ok fid →
      fid.cardID = strToLower (strTrim cardID) ∧
      fid.noteID = strTrim noteID ∧
      fid.cardSide = some (strToLower (strTrim side)) ∧
      strToLower (strTrim side) ∈ sideValues ∧
      fid.isFrontSide = .ok (strToLower (strTrim side) = "f" ∨ strToLower (strTrim side) = "front")) ∧
    (strToLower (strTrim side) ∉ sideValues →
      FullID.make noteID cardID (some side) = .error "Invalid value for side") := by
  constructor
  · intro fid hok
    simp only [FullID.make, hs, if_false] at hok
    by_cases hv : isSideValidStr (some side)
    · simp only [hv, if_true] at hok
      have hmem : strToLower (strTrim side) ∈ sideValues := by
        simpa [isSideValidStr, hs, List.contains] using hv
      cases hok
      refine ⟨rfl, rfl, rfl, hmem, ?_⟩
      simp only [FullID.isFrontSide]
      congr 1
      simp [Bool.or_eq_true, decide_eq_true_eq]
    · simp [hv] at hok
  · intro hnot
    have hv : isSideValidStr (some side) = false := by
      simp [isSideValidStr, hs, List.contains, hnot]
    simp [FullID.make, hs, hv]

/-- Witness for C10 at a concrete input. -/
theorem fullID_constructor_invariants_witness :
    (" Front " : String) ≠ "" ∧
    (∀ fid, FullID.make "Note A.md" " X1 " (some " Front ") = .ok fid →
      fid.cardID = strToLower (strTrim " X1 ") ∧
      fid.noteID = strTrim "Note A.md" ∧
      fid.cardSide = some (strToLower (strTrim " Front ")) ∧
      strToLower (strTrim " Front ") ∈ sideValues ∧
      fid.isFrontSide = .ok (strToLower (strTrim " Front ") = "f" ∨ strToLower (strTrim " Front ") = "front")) ∧
    (strToLower (strTrim " Front ") ∉ sideValues →
      FullID.make "Note A.md" " X1 " (some " Front ") = .error "Invalid value for side") := by
  refine ⟨by decide, ?_⟩
  exact fullID_constructor_invariants "Note A.md" " X1 " " Front " (by decide)

/-! ## Outline model (obsidian cache shapes used by the parser) -/

/-- Offsets of an obsidian `Pos` pair; only the `offset` components are ever
read by the parser, so `line`/`col` are omitted. -/
structure Position where
  startOffset : Nat
  endOffset : Nat
deriving DecidableEq, Repr

/-- obsidian `HeadingCache`. -/
structure HeadingCache where
  heading : String
  level : Nat
  position : Position
deriving DecidableEq, Repr

/-- obsidian `SectionCache`; `type` is e.g. `"heading"`, `"code"`,
`"thematicBreak"`. -/
structure SectionCache where
  type : String
  position : Position
deriving DecidableEq, Repr

/-- obsidian `CacheItem`, refined into the two concrete shapes the code
distinguishes by duck-typing (`FileParser.isHeadingCache` / `isSectionCache`,
src/unnamed/part_011 lines 42-53). -/
inductive CacheItem where
  | ofHeading (h : HeadingCache)
  | ofSection (s : SectionCache)
  /-- A plain `{ position }` object, as synthesized by the `HeadingIsFront`
  strategy for its zero-width delimiters: it has neither `heading`/`level` nor
  `type`, so both duck-typing tests answer `false`. -/
  | bare (position : Position)
deriving DecidableEq, Repr

def CacheItem.position : CacheItem → Position
  | .ofHeading h => h.position
  | .ofSection s => s.position
  | .bare p => p

/-- `FileParser.isHeadingCache`: the duck-typing test for `heading`/`level`. -/
def isHeadingCache : CacheItem → Bool
  | .ofHeading _ => true
  | _ => false

/-- `FileParser.isSectionType`. -/
def isSectionType (c : CacheItem) (t : String) : Bool :=
  match c with
  | .ofSection s => s.type = t
  | _ => false

def SECTION_TYPE_HEADING : String := "heading"
def SECTION_TYPE_CODE : String := "code"
def SECTION_TYPE_THEMATICBREAK : String := "thematicBreak"

/-- `SectionRange` (src/FileParser.ts lines 147-152): `start = none` means
"from document start", `stop = none` (field `end` in the source; renamed, the
word is a Lean keyword) means "to document end". -/
structure SectionRange where
  start : Option CacheItem
  stop : Option CacheItem
deriving DecidableEq, Repr

inductive IDScope where
  | unique
  | note
deriving DecidableEq, Repr

/-- `ContentInfo` (src/FileParser.ts lines 157-166); field `section` renamed to
`sect` (Lean keyword). -/
structure ContentInfo where
  sect : SectionCache
  range : SectionRange
deriving DecidableEq, Repr

/-- `IdentifiedContentInfo` (src/FileParser.ts lines 110-114). -/
structure IdentifiedContentInfo where
  id : FullID
  scope : IDScope
  contentInfo : ContentInfo
deriving DecidableEq, Repr

/-- `ContentReadOptions` (src/FileParser.ts lines 18-21). -/
structure ContentReadOptions where
  hideCardSectionMarker : Option Bool := none
  hideDeclarationBlock : Option Bool := none
deriving DecidableEq, Repr

/-- `ParseOptions` (src/FileParser.ts lines 10-13). -/
structure ParseOptions where
  contentRead : Option ContentReadOptions := none
  likelyNoteIDs : Option (List String) := none
deriving DecidableEq, Repr

/-! ## The FULL_ID_REGEX model

`FULL_ID_REGEX = /(front|f|back|b)@([^\s]+)/i` (src/FileParser.ts line 116).
`exec` finds the leftmost position where a match starts; at a fixed position
the alternatives are tried in the regex's order, each followed by `@` and a
maximal non-empty run of non-whitespace characters. -/

structure RegexMatch where
  /-- `match.index`. -/
  index : Nat
  /-- `match[0].length`. -/
  length : Nat
  /-- `match[1]`, stored lower-cased (the `/i` flag makes the alternative
  case-insensitive; every consumer lower-cases it before use). -/
  kind : String
  /-- `match[2]`: the maximal non-empty run of non-whitespace after `@`. -/
  cardID : String
deriving DecidableEq, Repr

/-- Case-insensitive comparison of a text fragment with a (lower-case) tag. -/
def matchesTagAt (s : List Char) (i : Nat) (tag : List Char) : Bool :=
  ((s.drop i).take tag.length).map Char.toLower = tag

def fullIDMatchAtTag (s : List Char) (i : Nat) (tag : String) : Option RegexMatch :=
  let t := tag.data
  if matchesTagAt s i t ∧ s.getD (i + t.length) ' ' = '@' ∧ i + t.length < s.length then
    let run := (s.drop (i + t.length + 1)).takeWhile (fun c => ¬ c.isWhitespace)
    if 1 ≤ run.length then
      some ⟨i, t.length + 1 + run.length, tag, String.mk run⟩
    else none
  else none

def fullIDMatchAt (s : List Char) (i : Nat) : Option RegexMatch :=
  match fullIDMatchAtTag s i "front" with
  | some m => some m
  | none => match fullIDMatchAtTag s i "f" with
    | some m => some m
    | none => match fullIDMatchAtTag s i "back" with
      | some m => some m
      | none => fullIDMatchAtTag s i "b"

def fullIDRegexExecAux (s : List Char) : Nat → Nat → Option RegexMatch
  | _, 0 => none
  | i, fuel + 1 =>
    match fullIDMatchAt s i with
    | some m => some m
    | none => fullIDRegexExecAux s (i + 1) fuel

/-- `FULL_ID_REGEX.exec text`. -/
def fullIDRegexExec (s : List Char) : Option RegexMatch :=
  fullIDRegexExecAux s 0 (s.length + 1)

/-- `DeclarationParser.findFullIDInText` (src/unnamed/part_008 lines 147-162). -/
def findFullIDInText (text : String) (noteID : String) : Option FullID :=
  match fullIDRegexExec text.data with
  | none => none
  | some m =>
    let kind := strToLower m.kind
    let isFront := kind.data.head? = some 'f'
    let isBack := kind.data.head? = some 'b'
    if isFront || isBack then some (FullID.create noteID m.cardID isFront) else none

/-! ## Content extraction (src/FileParser.ts lines 757-857, identical to
src/ContentParser.ts lines 367-467) -/

/-- Half-open exclusion span; field `end` of the source renamed to `stop`. -/
structure ContentRange where
  start : Nat
  stop : Nat
deriving DecidableEq, Repr

/-- The value the source assigns to the loop-carried `startIndex`:
`range.start + (range.end - range.start)`. Over `Nat` this equals `r.stop`
whenever `r.start ≤ r.stop`. -/
def ContentRange.jsStop (r : ContentRange) : Nat := r.start + (r.stop - r.start)

/-- `String.prototype.slice(a, b)` for non-negative arguments. -/
def jsSlice (s : List Char) (a b : Nat) : List Char := (s.take b).drop a

/-- Stable insertion of a range into a list sorted by `start`; models the
in-place `sort((a, b) => a.start - b.start)`. -/
def insertRangeByStart (x : ContentRange) : List ContentRange → List ContentRange
  | [] => [x]
  | y :: ys => if x.start ≤ y.start then x :: y :: ys else y :: insertRangeByStart x ys

def sortRangesByStart : List ContentRange → List ContentRange
  | [] => []
  | x :: xs => insertRangeByStart x (sortRangesByStart xs)

/-- The loop of `FileParser.subStringExcludingRanges` (src/FileParser.ts lines
847-855): slices the gaps before each (sorted) excluded range, then the tail. -/
def subStringRun (fileContent : List Char) (startIndex : Nat) : List ContentRange → List Char
  | [] => fileContent.drop startIndex
  | r :: rs => jsSlice fileContent startIndex r.start ++ subStringRun fileContent r.jsStop rs

/-- `FileParser.subStringExcludingRanges` (src/FileParser.ts lines 839-857). -/
def subStringExcludingRanges (fileContent : List Char) (excludeRanges : List ContentRange) : List Char :=
  if excludeRanges.length = 0 then []
  else subStringRun fileContent 0 (sortRangesByStart excludeRanges)

/-- The destructuring defaults of `getContentFromInfo` (src/FileParser.ts lines
763-766): `hideCardSectionMarker` defaults to `false`. -/
def optRemoveHeading (options : Option ParseOptions) : Bool :=
  (((options.bind (·.contentRead)).getD {}).hideCardSectionMarker).getD false

/-- `hideDeclarationBlock` defaults to `true` (src/FileParser.ts line 765). -/
def optHideDeclarationBlock (options : Option ParseOptions) : Bool :=
  (((options.bind (·.contentRead)).getD {}).hideDeclarationBlock).getD true

/-- `startDelimiterStartOffset` (src/FileParser.ts line 769). -/
def startDelimiterStartOffset (info : IdentifiedContentInfo) : Nat :=
  ((info.contentInfo.range.start.map (fun c => c.position.startOffset))).getD 0

/-- `startDelimiterEndOffset` (src/FileParser.ts line 770). -/
def startDelimiterEndOffset (info : IdentifiedContentInfo) : Nat :=
  ((info.contentInfo.range.start.map (fun c => c.position.endOffset))).getD 0

/-- `endOffset` (src/FileParser.ts lines 771-772): start offset of the end
delimiter, or the document length when the range is unbounded. -/
def contentEndOffset (fileContent : List Char) (info : IdentifiedContentInfo) : Nat :=
  ((info.contentInfo.range.stop.map (fun c => c.position.startOffset))).getD fileContent.length

/-- The `rangesToExclude` list built by `FileParser.getContentFromInfo`
(src/FileParser.ts lines 774-829), in push order: the before-content range(s)
(plus, for a heading-led side, the `front@id` marker inside the heading text),
then every code section of `allInfos` starting strictly inside the content
(skipping the side's own declaration block unless `hideDeclarationBlock`), then
the after-content range. -/
def getContentRangesToExclude (fileContent : List Char) (info : IdentifiedContentInfo)
    (allInfos : List IdentifiedContentInfo) (options : Option ParseOptions) : List ContentRange :=
  let removeHeading := optRemoveHeading options
  let hideDeclarationBlock := optHideDeclarationBlock options
  let contentInfo := info.contentInfo
  let startStart := startDelimiterStartOffset info
  let startEnd := startDelimiterEndOffset info
  let endOffset := contentEndOffset fileContent info
  let headRanges : List ContentRange :=
    if hideDeclarationBlock ∧ contentInfo.sect.type = SECTION_TYPE_HEADING then
      let first : ContentRange := ⟨0, startStart⟩
      let heading := jsSlice fileContent startStart startEnd
      match fullIDRegexExec heading with
      | some m => [first, ⟨startStart + m.index, startStart + m.index + m.length⟩]
      | none => [first]
    else
      [⟨0, if removeHeading then startEnd else startStart⟩]
  let codeRanges : List ContentRange := allInfos.filterMap (fun i =>
    let s := i.contentInfo.sect
    if s.type = SECTION_TYPE_CODE ∧
        startEnd < s.position.startOffset ∧ s.position.startOffset < endOffset then
      let rangeToExclude : ContentRange := ⟨s.position.startOffset, s.position.endOffset⟩
      if hideDeclarationBlock ∨ contentInfo.sect.position.startOffset ≠ rangeToExclude.start then
        some rangeToExclude
      else none
    else none)
  headRanges ++ codeRanges ++ [⟨endOffset, fileContent.length⟩]

/-- `FileParser.getContentFromInfo` (src/FileParser.ts lines 757-832). -/
def getContentFromInfo (fileContent : List Char) (info : IdentifiedContentInfo)
    (allInfos : List IdentifiedContentInfo) (options : Option ParseOptions) : List Char :=
  subStringExcludingRanges fileContent (getContentRangesToExclude fileContent info allInfos options)

/-! ### Positional characterization of the exclusion machinery -/

/-- The positions of the document that `subStringRun` keeps: the gap before
each excluded range, then the tail of the document. -/
def keptPositions (len startIndex : Nat) : List ContentRange → List Nat
  | [] => List.range' startIndex (len - startIndex)
  | r :: rs => List.range' startIndex (r.start - startIndex) ++ keptPositions len r.jsStop rs

/-- A list of exclusion ranges is chained from `i` when every range starts no
earlier than the scan position left by its predecessors. A sorted list of
pairwise disjoint well-formed ranges starting at or after `i` is chained; this
is the shape `rangesToExclude` has for a well-formed outline. -/
def chainedB (i : Nat) : List ContentRange → Bool
  | [] => true
  | r :: rs => decide (i ≤ r.start) && chainedB r.jsStop rs

theorem start_le_jsStop (r : ContentRange) : r.start ≤ r.jsStop :=
  Nat.le_add_right _ _

theorem jsStop_eq_stop {r : ContentRange} (h : r.start ≤ r.stop) : r.jsStop = r.stop := by
  simp [ContentRange.jsStop, Nat.add_sub_cancel' h]

theorem chainedB_le_start {i : Nat} {rs : List ContentRange}
    (h : chainedB i rs = true) : ∀ r ∈ rs, i ≤ r.start := by
  induction rs generalizing i with
  | nil => intro r hr; cases hr
  | cons a as ih =>
    simp only [chainedB, Bool.and_eq_true, decide_eq_true_eq] at h
    intro r hr
    rcases List.mem_cons.mp hr with rfl | hmem
    · exact h.1
    · exact le_trans (le_trans h.1 (start_le_jsStop a)) (ih h.2 r hmem)

theorem drop_eq_map_range (s : List Char) (i : Nat) :
    s.drop i = (List.range' i (s.length - i)).map (fun p => s.getD p ' ') := by
  apply List.ext_getElem
  · simp
  · intro k h1 h2
    simp only [List.getElem_drop, List.getElem_map, List.getElem_range']
    rw [List.length_drop] at h1
    rw [List.getD_eq_getElem?_getD, List.getElem?_eq_getElem (by omega), Option.getD_some]
    congr 1
    omega

theorem jsSlice_eq_map_range (s : List Char) (a b : Nat) (hb : b ≤ s.length) :
    jsSlice s a b = (List.range' a (b - a)).map (fun p => s.getD p ' ') := by
  apply List.ext_getElem
  · simp [jsSlice]
    omega
  · intro k h1 h2
    simp only [jsSlice, List.getElem_drop, List.getElem_take, List.getElem_map,
      List.getElem_range']
    simp only [jsSlice, List.length_drop, List.length_take] at h1
    rw [List.getD_eq_getElem?_getD, List.getElem?_eq_getElem (by omega), Option.getD_some]
    congr 1
    omega

theorem subStringRun_eq_map (s : List Char) :
    ∀ (rs : List ContentRange) (i : Nat), chainedB i rs = true →
      (∀ r ∈ rs, r.jsStop ≤ s.length) →
      subStringRun s i rs = (keptPositions s.length i rs).map (fun p => s.getD p ' ') := by
  intro rs
  induction rs with
  | nil => intro i _ _; simpa [subStringRun, keptPositions] using drop_eq_map_range s i
  | cons r rs ih =>
    intro i hch hb
    simp only [chainedB, Bool.and_eq_true, decide_eq_true_eq] at hch
    have hrlen : r.start ≤ s.length :=
      le_trans (start_le_jsStop r) (hb r (List.mem_cons_self _ _))
    simp only [subStringRun, keptPositions, List.map_append]
    rw [jsSlice_eq_map_range s i r.start hrlen,
      ih r.jsStop hch.2 (fun x hx => hb x (List.mem_cons_of_mem _ hx))]

theorem mem_keptPositions {len : Nat} :
    ∀ (rs : List ContentRange) (i p : Nat), chainedB i rs = true →
      (∀ r ∈ rs, r.jsStop ≤ len) →
      (p ∈ keptPositions len i rs ↔
        (i ≤ p ∧ p < len ∧ ∀ r ∈ rs, ¬(r.start ≤ p ∧ p < r.jsStop))) := by
  intro rs
  induction rs with
  | nil =>
    intro i p _ _
    simp only [keptPositions, List.mem_range'_1]
    constructor
    · rintro ⟨h1, h2⟩
      exact ⟨h1, by omega, fun r hr => absurd hr (List.not_mem_nil r)⟩
    · rintro ⟨h1, h2, _⟩
      exact ⟨h1, by omega⟩
  | cons r rs ih =>
    intro i p hch hb
    simp only [chainedB, Bool.and_eq_true, decide_eq_true_eq] at hch
    have hbr : r.jsStop ≤ len := hb r (List.mem_cons_self _ _)
    have hbtail : ∀ x ∈ rs, x.jsStop ≤ len := fun x hx => hb x (List.mem_cons_of_mem _ hx)
    have hnext : ∀ x ∈ rs, r.jsStop ≤ x.start := chainedB_le_start hch.2
    simp only [keptPositions, List.mem_append, List.mem_range'_1,
      ih r.jsStop p hch.2 hbtail]
    constructor
    · rintro (⟨h1, h2⟩ | ⟨h1, h2, h3⟩)
      · have hps : p < r.start := by omega
        refine ⟨h1, by have := start_le_jsStop r; omega, ?_⟩
        intro x hx
        rcases List.mem_cons.mp hx with rfl | hmem
        · omega
        · have := hnext x hmem
          have := start_le_jsStop r
          omega
      · refine ⟨le_trans (le_trans hch.1 (start_le_jsStop r)) h1, h2, ?_⟩
        intro x hx
        rcases List.mem_cons.mp hx with rfl | hmem
        · omega
        · exact h3 x hmem
    · rintro ⟨h1, h2, h3⟩
      have hr := h3 r (List.mem_cons_self _ _)
      by_cases hp : p < r.start
      · left; constructor
        · exact h1
        · omega
      · right
        refine ⟨by omega, h2, fun x hx => h3 x (List.mem_cons_of_mem _ hx)⟩

theorem mem_insertRangeByStart {x y : ContentRange} :
    ∀ {l : List ContentRange}, (y ∈ insertRangeByStart x l ↔ y = x ∨ y ∈ l) := by
  intro l
  induction l with
  | nil => simp [insertRangeByStart]
  | cons a as ih =>
    by_cases h : x.start ≤ a.start
    · simp [insertRangeByStart, h]
    · simp only [insertRangeByStart, if_neg h, List.mem_cons, ih]
      tauto

theorem mem_sortRangesByStart {y : ContentRange} :
    ∀ {l : List ContentRange}, (y ∈ sortRangesByStart l ↔ y ∈ l) := by
  intro l
  induction l with
  | nil => simp [sortRangesByStart]
  | cons a as ih =>
    simp only [sortRangesByStart, mem_insertRangeByStart, List.mem_cons, ih]

theorem length_insertRangeByStart (x : ContentRange) :
    ∀ (l : List ContentRange), (insertRangeByStart x l).length = l.length + 1 := by
  intro l
  induction l with
  | nil => rfl
  | cons a as ih =>
    by_cases h : x.start ≤ a.start
    · simp [insertRangeByStart, h]
    · simp [insertRangeByStart, h, ih]

theorem length_sortRangesByStart :
    ∀ (l : List ContentRange), (sortRangesByStart l).length = l.length := by
  intro l
  induction l with
  | nil => rfl
  | cons a as ih => simp [sortRangesByStart, length_insertRangeByStart, ih]

theorem jsStop_eq_max (r : ContentRange) : r.jsStop = max r.start r.stop := by
  simp only [ContentRange.jsStop]
  omega

/-- The sorted exclusion list actually consumed by `subStringExcludingRanges`. -/
def sortedRangesToExclude (fileContent : List Char) (info : IdentifiedContentInfo)
    (allInfos : List IdentifiedContentInfo) (options : Option ParseOptions) : List ContentRange :=
  sortRangesByStart (getContentRangesToExclude fileContent info allInfos options)

/-- The document positions that survive extraction. -/
def keptContentPositions (fileContent : List Char) (info : IdentifiedContentInfo)
    (allInfos : List IdentifiedContentInfo) (options : Option ParseOptions) : List Nat :=
  keptPositions fileContent.length 0 (sortedRangesToExclude fileContent info allInfos options)

/-- Well-formedness of the exclusion list for a given input: the sorted ranges
are chained (pairwise disjoint, in order) and stay inside the document. This
always holds for side infos coming from a real outline, whose sections are
disjoint, in-bounds and do not straddle the delimiters. -/
def exclusionWellFormed (fileContent : List Char) (info : IdentifiedContentInfo)
    (allInfos : List IdentifiedContentInfo) (options : Option ParseOptions) : Bool :=
  chainedB 0 (sortedRangesToExclude fileContent info allInfos options) &&
  (getContentRangesToExclude fileContent info allInfos options).all
    (fun r => decide (r.jsStop ≤ fileContent.length))

theorem rangesToExclude_length_pos (fileContent : List Char) (info : IdentifiedContentInfo)
    (allInfos : List IdentifiedContentInfo) (options : Option ParseOptions) :
    0 < (getContentRangesToExclude fileContent info allInfos options).length := by
  simp [getContentRangesToExclude]

theorem wellFormed_chained {fileContent : List Char} {info : IdentifiedContentInfo}
    {allInfos : List IdentifiedContentInfo} {options : Option ParseOptions}
    (hwf : exclusionWellFormed fileContent info allInfos options = true) :
    chainedB 0 (sortedRangesToExclude fileContent info allInfos options) = true := by
  unfold exclusionWellFormed at hwf
  exact (Bool.and_eq_true_iff.mp hwf).1

theorem sorted_bounds_of_wellFormed {fileContent : List Char} {info : IdentifiedContentInfo}
    {allInfos : List IdentifiedContentInfo} {options : Option ParseOptions}
    (hwf : exclusionWellFormed fileContent info allInfos options = true) :
    ∀ r ∈ sortedRangesToExclude fileContent info allInfos options,
      r.jsStop ≤ fileContent.length := by
  intro r hr
  unfold exclusionWellFormed at hwf
  have hall := (Bool.and_eq_true_iff.mp hwf).2
  rw [List.all_eq_true] at hall
  exact decide_eq_true_eq.mp
    (hall r (mem_sortRangesByStart.mp hr))

/-- Under well-formedness, extraction returns exactly the characters at the
kept positions. -/
theorem getContentFromInfo_eq_map {fileContent : List Char} {info : IdentifiedContentInfo}
    {allInfos : List IdentifiedContentInfo} {options : Option ParseOptions}
    (hwf : exclusionWellFormed fileContent info allInfos options = true) :
    getContentFromInfo fileContent info allInfos options
      = (keptContentPositions fileContent info allInfos options).map
          (fun p => fileContent.getD p ' ') := by
  have hchain := wellFormed_chained hwf
  have hlen := rangesToExclude_length_pos fileContent info allInfos options
  unfold getContentFromInfo subStringExcludingRanges
  rw [if_neg (by omega)]
  exact subStringRun_eq_map fileContent _ 0 hchain (sorted_bounds_of_wellFormed hwf)

/-- C1: with `hideDeclarationBlock = true`, the extracted content keeps no
position of any other side's fenced declaration section whose start offset lies
strictly between the side's start-delimiter end offset and the side's end
offset (conjuncts 1-2: the output is exactly the characters at the kept
positions, and the other block's positions are not kept); with
`hideDeclarationBlock = false` the side's own declaration block is retained
(conjuncts 3-4: its positions are all kept). -/
theorem getContentFromInfo_excludes_other_declaration_blocks
    (fileContent : List Char) (info other : IdentifiedContentInfo)
    (allInfos : List IdentifiedContentInfo) (options options2 : Option ParseOptions)
    (hHide : optHideDeclarationBlock options = true)
    (hwf : exclusionWellFormed fileContent info allInfos options = true)
    (hmem : other ∈ allInfos)
    (hcode : other.contentInfo.sect.type = SECTION_TYPE_CODE)
    (hlo : startDelimiterEndOffset info < other.contentInfo.sect.position.startOffset)
    (hhi : other.contentInfo.sect.position.startOffset < contentEndOffset fileContent info)
    (hse : other.contentInfo.sect.position.startOffset ≤ other.contentInfo.sect.position.endOffset)
    (hHide2 : optHideDeclarationBlock options2 = false)
    (hwf2 : exclusionWellFormed fileContent info allInfos options2 = true)
    (hpos : startDelimiterStartOffset info ≤ startDelimiterEndOffset info)
    (hlo2 : startDelimiterEndOffset info < info.contentInfo.sect.position.startOffset)
    (hstopEnd : info.contentInfo.sect.position.endOffset ≤ contentEndOffset fileContent info)
    (hstopLen : info.contentInfo.sect.position.endOffset ≤ fileContent.length)
    (hdisj : ∀ i ∈ allInfos, i.contentInfo.sect.type = SECTION_TYPE_CODE →
      i.contentInfo.sect.position.startOffset ≠ info.contentInfo.sect.position.startOffset →
      (i.contentInfo.sect.position.endOffset ≤ info.contentInfo.sect.position.startOffset ∨
        info.contentInfo.sect.position.endOffset ≤ i.contentInfo.sect.position.startOffset)) :
    (getContentFromInfo fileContent info allInfos options
        = (keptContentPositions fileContent info allInfos options).map
            (fun p => fileContent.getD p ' ')) ∧
    (∀ p, other.contentInfo.sect.position.startOffset ≤ p →
        p < other.contentInfo.sect.position.endOffset →
        p ∉ keptContentPositions fileContent info allInfos options) ∧
    (getContentFromInfo fileContent info allInfos options2
        = (keptContentPositions fileContent info allInfos options2).map
            (fun p => fileContent.getD p ' ')) ∧
    (∀ p, info.contentInfo.sect.position.startOffset ≤ p →
        p < info.contentInfo.sect.position.endOffset →
        p ∈ keptContentPositions fileContent info allInfos options2) := by
  have hchain := wellFormed_chained hwf
  have hchain2 := wellFormed_chained hwf2
  refine ⟨getContentFromInfo_eq_map hwf, ?_, getContentFromInfo_eq_map hwf2, ?_⟩
  · -- the other side's declaration block is excluded
    intro p hp1 hp2 hmemk
    have hk := (mem_keptPositions _ 0 p hchain (sorted_bounds_of_wellFormed hwf)).mp hmemk
    obtain ⟨-, -, hall⟩ := hk
    refine hall ⟨other.contentInfo.sect.position.startOffset,
        other.contentInfo.sect.position.endOffset⟩ ?_ ⟨hp1, ?_⟩
    · apply mem_sortRangesByStart.mpr
      simp only [getContentRangesToExclude, List.mem_append, List.mem_filterMap]
      refine Or.inl (Or.inr ⟨other, hmem, ?_⟩)
      simp [hcode, hlo, hhi, hHide, SECTION_TYPE_CODE]
    · rw [jsStop_eq_stop hse]
      exact hp2
  · -- with hideDeclarationBlock unset, the side's own block is kept
    intro p hp1 hp2
    apply (mem_keptPositions _ 0 p hchain2 (sorted_bounds_of_wellFormed hwf2)).mpr
    refine ⟨Nat.zero_le _, lt_of_lt_of_le hp2 hstopLen, ?_⟩
    intro r hr hcov
    have hr' := mem_sortRangesByStart.mp hr
    rw [jsStop_eq_max] at hcov
    simp only [getContentRangesToExclude, hHide2, Bool.false_eq_true, false_and, if_false,
      List.mem_append, List.mem_filterMap, List.mem_singleton] at hr'
    rcases hr' with (hr' | ⟨i2, hi2mem, hi2⟩) | rfl
    · -- the before-content range cannot reach the own block
      subst hr'
      rcases hcov with ⟨hc1, hc2⟩
      by_cases hrh : optRemoveHeading options2 = true <;> simp [hrh] at hc2 <;> omega
    · -- another code section's exclusion range is disjoint from the own block
      by_cases hout : i2.contentInfo.sect.type = SECTION_TYPE_CODE ∧
          startDelimiterEndOffset info < i2.contentInfo.sect.position.startOffset ∧
          i2.contentInfo.sect.position.startOffset < contentEndOffset fileContent info
      · rw [if_pos hout] at hi2
        by_cases hin : info.contentInfo.sect.position.startOffset =
            i2.contentInfo.sect.position.startOffset
        · rw [if_neg (by simp [hin])] at hi2
          cases hi2
        · rw [if_pos (Or.inr hin)] at hi2
          cases hi2
          rcases hcov with ⟨hc1, hc2⟩
          have hc1' : i2.contentInfo.sect.position.startOffset ≤ p := hc1
          have hc2' : p < max i2.contentInfo.sect.position.startOffset
              i2.contentInfo.sect.position.endOffset := hc2
          rcases hdisj i2 hi2mem hout.1 (fun h => hin h.symm) with hd | hd <;>
            simp only [Nat.max_def] at hc2' <;> split at hc2' <;> omega
      · rw [if_neg hout] at hi2
        cases hi2
    · -- the after-content range starts at the end offset, past the own block
      rcases hcov with ⟨hc1, -⟩
      simp only at hc1
      omega

/-! ### Concrete data for the C1 witness: a document with a heading section
containing two fenced declaration blocks. -/

def c1Text : List Char := ("# H f@x\nabc\nCODE1\ndef\nOWNBB\nghi\n# T\nzz").data

def c1Start : CacheItem := .ofHeading ⟨"H f@x", 1, ⟨0, 7⟩⟩
def c1End : CacheItem := .ofHeading ⟨"T", 1, ⟨32, 35⟩⟩

def c1Info : IdentifiedContentInfo :=
  { id := FullID.create "n.md" "x" true
    scope := .unique
    contentInfo := { sect := ⟨"code", ⟨22, 27⟩⟩, range := ⟨some c1Start, some c1End⟩ } }

def c1Other : IdentifiedContentInfo :=
  { id := FullID.create "n.md" "y" false
    scope := .unique
    contentInfo := { sect := ⟨"code", ⟨12, 17⟩⟩, range := ⟨some c1Start, some c1End⟩ } }

def c1AllInfos : List IdentifiedContentInfo := [c1Info, c1Other]

def c1Opts : Option ParseOptions :=
  some { contentRead := some { hideDeclarationBlock := some true } }

def c1Opts2 : Option ParseOptions :=
  some { contentRead := some { hideDeclarationBlock := some false } }

/-- Witness for C1 at a concrete document. -/
theorem getContentFromInfo_excludes_other_declaration_blocks_witness :
    (optHideDeclarationBlock c1Opts = true ∧
      exclusionWellFormed c1Text c1Info c1AllInfos c1Opts = true ∧
      c1Other ∈ c1AllInfos ∧
      c1Other.contentInfo.sect.type = SECTION_TYPE_CODE ∧
      startDelimiterEndOffset c1Info < c1Other.contentInfo.sect.position.startOffset ∧
      c1Other.contentInfo.sect.position.startOffset < contentEndOffset c1Text c1Info ∧
      c1Other.contentInfo.sect.position.startOffset ≤ c1Other.contentInfo.sect.position.endOffset ∧
      optHideDeclarationBlock c1Opts2 = false ∧
      exclusionWellFormed c1Text c1Info c1AllInfos c1Opts2 = true ∧
      startDelimiterStartOffset c1Info ≤ startDelimiterEndOffset c1Info ∧
      startDelimiterEndOffset c1Info < c1Info.contentInfo.sect.position.startOffset ∧
      c1Info.contentInfo.sect.position.endOffset ≤ contentEndOffset c1Text c1Info ∧
      c1Info.contentInfo.sect.position.endOffset ≤ c1Text.length ∧
      (∀ i ∈ c1AllInfos, i.contentInfo.sect.type = SECTION_TYPE_CODE →
        i.contentInfo.sect.position.startOffset ≠ c1Info.contentInfo.sect.position.startOffset →
        (i.contentInfo.sect.position.endOffset ≤ c1Info.contentInfo.sect.position.startOffset ∨
          c1Info.contentInfo.sect.position.endOffset ≤ i.contentInfo.sect.position.startOffset))) ∧
    ((getContentFromInfo c1Text c1Info c1AllInfos c1Opts
        = (keptContentPositions c1Text c1Info c1AllInfos c1Opts).map
            (fun p => c1Text.getD p ' ')) ∧
      (∀ p, c1Other.contentInfo.sect.position.startOffset ≤ p →
          p < c1Other.contentInfo.sect.position.endOffset →
          p ∉ keptContentPositions c1Text c1Info c1AllInfos c1Opts) ∧
      (getContentFromInfo c1Text c1Info c1AllInfos c1Opts2
        = (keptContentPositions c1Text c1Info c1AllInfos c1Opts2).map
            (fun p => c1Text.getD p ' ')) ∧
      (∀ p, c1Info.contentInfo.sect.position.startOffset ≤ p →
          p < c1Info.contentInfo.sect.position.endOffset →
          p ∈ keptContentPositions c1Text c1Info c1AllInfos c1Opts2)) :=
  ⟨⟨by decide, by decide, by simp [c1AllInfos], by decide, by decide, by decide, by decide,
      by decide, by decide, by decide, by decide, by decide, by decide, by decide⟩,
    getContentFromInfo_excludes_other_declaration_blocks c1Text c1Info c1Other
      c1AllInfos c1Opts c1Opts2 (by decide) (by decide) (by simp [c1AllInfos]) (by decide)
      (by decide) (by decide) (by decide) (by decide) (by decide) (by decide) (by decide)
      (by decide) (by decide) (by decide)⟩

/-! ### Idempotence of the in-place sort (used for claim C8) -/

theorem insertRangeByStart_sorted {x : ContentRange} {l : List ContentRange}
    (h : l.Pairwise (fun a b => a.start ≤ b.start)) :
    (insertRangeByStart x l).Pairwise (fun a b => a.start ≤ b.start) := by
  induction l with
  | nil => simp [insertRangeByStart]
  | cons a as ih =>
    rcases List.pairwise_cons.mp h with ⟨ha, has⟩
    by_cases hc : x.start ≤ a.start
    · rw [insertRangeByStart, if_pos hc]
      refine List.pairwise_cons.mpr ⟨?_, h⟩
      intro b hb
      rcases List.mem_cons.mp hb with rfl | hmem
      · exact hc
      · exact le_trans hc (ha b hmem)
    · rw [insertRangeByStart, if_neg hc]
      refine List.pairwise_cons.mpr ⟨?_, ih has⟩
      intro b hb
      rcases mem_insertRangeByStart.mp hb with rfl | hmem
      · omega
      · exact ha b hmem

theorem sortRangesByStart_sorted (l : List ContentRange) :
    (sortRangesByStart l).Pairwise (fun a b => a.start ≤ b.start) := by
  induction l with
  | nil => simp [sortRangesByStart]
  | cons a as ih => exact insertRangeByStart_sorted ih

theorem sortRangesByStart_of_sorted {l : List ContentRange}
    (h : l.Pairwise (fun a b => a.start ≤ b.start)) : sortRangesByStart l = l := by
  induction l with
  | nil => rfl
  | cons a as ih =>
    rcases List.pairwise_cons.mp h with ⟨ha, has⟩
    rw [sortRangesByStart, ih has]
    cases as with
    | nil => rfl
    | cons b bs =>
      rw [insertRangeByStart, if_pos (ha b (List.mem_cons_self _ _))]

theorem sortRangesByStart_idempotent (l : List ContentRange) :
    sortRangesByStart (sortRangesByStart l) = sortRangesByStart l :=
  sortRangesByStart_of_sorted (sortRangesByStart_sorted l)

/-! ## YAML object model

`parseYaml` / `stringifyYaml` are host (obsidian) functions, external to this
repository; they are modelled from the spec (§4.1: "Content inside is
YAML-like key/value text ... parsed into a mapping"; §6: flat `key: value`
lines, "there must be a space between the colon and the value"). Parsed JS
objects are association lists in key insertion order. -/

inductive YVal where
  | str (s : String)
  | num (n : Nat)
  | nullV
deriving DecidableEq, Repr

/-- JS truthiness of the modelled values. -/
def YVal.truthy : YVal → Bool
  | .str s => s ≠ ""
  | .num n => n ≠ 0
  | .nullV => false

def YVal.render : YVal → String
  | .str s => s
  | .num n => toString n
  | .nullV => "null"

abbrev YObj := List (String × YVal)

/-- `Object.hasOwn obj k`. -/
def hasOwn (obj : YObj) (k : String) : Bool := obj.any (fun kv => kv.1 = k)

/-- JS property read `obj[k]`; `none` models `undefined`. -/
def getVal (obj : YObj) (k : String) : Option YVal :=
  (obj.find? (fun kv => kv.1 = k)).map (fun kv => kv.2)

/-- JS `delete obj[k]`. -/
def deleteKey (obj : YObj) (k : String) : YObj := obj.filter (fun kv => kv.1 ≠ k)

/-- JS `obj[k] = v`: overwrites in place when the key exists, otherwise appends
(key insertion order). -/
def setKey (obj : YObj) (k : String) (v : YVal) : YObj :=
  if hasOwn obj k then obj.map (fun kv => if kv.1 = k then (k, v) else kv)
  else obj ++ [(k, v)]

structure YamlParseError where
  message : String
deriving DecidableEq, Repr

def natOfDigits (l : List Char) : Nat :=
  l.foldl (fun n c => n * 10 + (c.toNat - '0'.toNat)) 0

/-- Modelled from the spec: scalar interpretation of a YAML value token —
all-digit tokens are numbers, the literal `null` is null, anything else is a
plain string. -/
def parseScalar (v : String) : YVal :=
  if v = "null" then .nullV
  else if v ≠ "" ∧ v.data.all Char.isDigit then .num (natOfDigits v.data)
  else .str v

/-- Split a character list into its `'\n'`-separated lines. -/
def splitLinesCh : List Char → List (List Char)
  | [] => [[]]
  | c :: rest =>
    if c = '\n' then [] :: splitLinesCh rest
    else
      match splitLinesCh rest with
      | [] => [[c]]
      | l :: ls => (c :: l) :: ls

/-- Split a line at the first `": "` separator (the value may itself contain
`": "`). -/
def splitFirstSep : List Char → Option (List Char × List Char)
  | [] => none
  | [_] => none
  | a :: b :: rest =>
    if a = ':' ∧ b = ' ' then some ([], rest)
    else (splitFirstSep (b :: rest)).map (fun kv => (a :: kv.1, kv.2))

/-- Modelled from the spec: `parseYaml` (obsidian). Flat `key: value` lines;
blank lines are ignored; a non-blank line without a `": "` separator is a
`YAMLParseError`; an input with no pairs parses to JS `null` (`none`). -/
def parseYamlM (source : String) : Except YamlParseError (Option YObj) := do
  let lines := (splitLinesCh source.data).filter (fun l => ¬ l.all Char.isWhitespace)
  let pairs ← lines.foldlM (fun (acc : YObj) line =>
    match splitFirstSep line with
    | none => .error ⟨"YAMLParseError"⟩
    | some (k, v) =>
      .ok (setKey acc (String.mk (trimCh k)) (parseScalar (String.mk (trimCh v))))) ([] : YObj)
  if pairs.isEmpty then return none else return (some pairs)

/-- Modelled from the spec: `stringifyYaml` (obsidian), one `key: value` line
per entry in key insertion order. -/
def stringifyYamlM (obj : YObj) : String :=
  String.mk (obj.foldr
    (fun kv acc => kv.1.data ++ ':' :: ' ' :: kv.2.render.data ++ '\n' :: acc) [])

/-! ## Declaration base (src/src/declarations/Declaration.ts) -/

/-- `fromUserFriendlyKeys` (Declaration.ts lines 100-106): the user-facing
`deck` key is renamed to the internal `deckID` property. (The source text is
lower-cased before parsing, so parsed keys are lower-case and `deckID` can
never collide with a parsed key.) -/
def fromUserFriendlyKeys (obj : YObj) : YObj :=
  if hasOwn obj "deck" then
    let deckID := (getVal obj "deck").getD .nullV
    setKey (deleteKey obj "deck") "deckID" deckID
  else obj

/-- `toUserFriendlyKeys` (Declaration.ts lines 108-116): `deckID` is renamed
back to `deck`, and omitted entirely when falsy ("Only include if specific
deck set"). -/
def toUserFriendlyKeys (obj : YObj) : YObj :=
  if hasOwn obj "deckID" then
    let deckID := (getVal obj "deckID").getD .nullV
    let obj2 := deleteKey obj "deckID"
    if deckID.truthy then setKey obj2 "deck" deckID else obj2
  else obj

/-- `Declaration.tryParseYaml` (Declaration.ts lines 71-87): lower-cases the
whole source, parses, renames `deck` to `deckID`. A YAML parse error is
reported through the `onParseError` callback — reified as the second
component — and yields `null`; the modelled `parseYaml` throws only
`YAMLParseError`s, so the rethrow branch is unreachable and the function is
total. -/
def tryParseYaml (yaml : String) : Option YObj × List YamlParseError :=
  match parseYamlM (strToLower yaml) with
  | .error e => (none, [e])
  | .ok none => (none, [])
  | .ok (some obj) => (some (fromUserFriendlyKeys obj), [])

/-- `Declaration.toString` (Declaration.ts lines 89-92). -/
def declarationToString (declaration : YObj) : String :=
  stringifyYamlM (toUserFriendlyKeys declaration)

def LANGUAGE : String := "comethrough"
def LANGUAGE_SHORT : String := "ct"
def CODE_BLOCK_MARKER_LENGTH : Nat := 3

/-- `String.prototype.slice` on character indices, for `String` values. -/
def strSlice (s : String) (a b : Nat) : String := String.mk ((s.data.take b).drop a)

abbrev DeclarationRange := ContentRange

/-- `Declaration.slice` (Declaration.ts lines 42-44). -/
def declarationSlice (source : String) (location : DeclarationRange) : String :=
  strSlice source location.start location.stop

/-- `Declaration.contentOfCodeBlock` (Declaration.ts lines 50-62): accepts the
fence only when the first line's language tag (after the three back-ticks,
trimmed) is one of the two accepted spellings; the returned range spans from
just after the first line to just before the closing marker. -/
def contentOfCodeBlock (source : String) : Option DeclarationRange :=
  let firstLine := source.data.takeWhile (fun c => c ≠ '\n')
  let language := String.mk (trimCh (firstLine.drop CODE_BLOCK_MARKER_LENGTH))
  if language = LANGUAGE ∨ language = LANGUAGE_SHORT then
    some ⟨firstLine.length + 1, source.data.length - CODE_BLOCK_MARKER_LENGTH⟩
  else none

/-! ## Card declarations (CardDeclaration / CardDeclarationAssistant,
src/src/declarations/DeclarationRenderer.ts composite lines 289-486) -/

/-- `CardDeclaration`: `side` is stored trimmed and lower-cased by the
constructor. -/
structure CardDeclaration where
  id : String
  side : String
  idScope : IDScope
  deckID : YVal
  isAutoGenerated : Bool
deriving DecidableEq, Repr

/-- The `CardDeclaration` constructor for the statically-typed call sites
(command strategies) where `side` is a string literal. -/
def CardDeclaration.make (id side : String) (idScope : IDScope) (deckID : YVal)
    (isAutoGenerated : Bool) : CardDeclaration :=
  ⟨id, strToLower (strTrim side), idScope, deckID, isAutoGenerated⟩

def frontSideValues : List String := ["f", "front"]
def backSideValues : List String := ["b", "back"]

/-- `CardDeclarationAssistant.isSideValid` (lines 469-474): calling
`side.trim()` on a non-string throws a `TypeError`. -/
def isSideValidY : YVal → Except String Bool
  | .str s => .ok ((frontSideValues ++ backSideValues).contains (strToLower (strTrim s)))
  | _ => .error "TypeError: side.trim is not a function"

/-- `CardDeclarationAssistant.isFrontSide` (lines 476-480): with
`throwIfNotValid` it first validates the side (which itself may throw a
`TypeError`), then tests raw membership in the front values. -/
def isFrontSideY (side : YVal) (throwIfNotValid : Bool) : Except String Bool := do
  if throwIfNotValid then
    let ok ← isSideValidY side
    if ¬ ok then throw ("Side is not valid: " ++ side.render)
  match side with
  | .str s => return frontSideValues.contains s
  | _ => return false

/-- `Declaration.conformsToDeckable` (Declaration.ts lines 122-128): a parsed
mapping always passes the `isObject` test; a missing `deckID` is defaulted to
`null` (a mutation, returned as the second component). -/
def conformsToDeckable (obj : YObj) : Bool × YObj :=
  if hasOwn obj "deckID" then (true, obj) else (true, setKey obj "deckID" .nullV)

/-- `CardDeclarationAssistant.conformsToDefaultable` (lines 452-460): deckable
and a `side` key present (its value is not inspected here). -/
def conformsToDefaultable (obj : YObj) : Bool × YObj :=
  match conformsToDeckable obj with
  | (ok, obj1) =>
    if ¬ ok then (false, obj1)
    else if ¬ hasOwn obj1 "side" then (false, obj1)
    else (true, obj1)

/-- `CardDeclarationAssistant.conformsToDeclarable` (lines 432-443): reads `id`
before the default-assignment, so an absent `id` is set to `""` but the
captured `id` is still `undefined` and the answer is `false`; a present
non-string `id` also answers `false`. -/
def conformsToDeclarable (obj : YObj) : Bool × YObj :=
  match conformsToDefaultable obj with
  | (ok, obj1) =>
    if ¬ ok then (false, obj1)
    else
      match getVal obj1 "id" with
      | none => (false, setKey obj1 "id" (.str ""))
      | some (.str _) => (true, obj1)
      | some _ => (false, obj1)

/-- `new CardDeclaration(obj.id, obj.side, IDScope.UNIQUE, obj.deckID)` as
called from `parseCodeBlock`/`fromFrontmatter` after `conformsToDeclarable`
(so `id` is a string and `side` is present); the constructor's
`side.trim().toLowerCase()` throws a `TypeError` when `side` is not a
string. -/
def CardDeclaration.fromParsed (obj : YObj) : Except String CardDeclaration :=
  match (getVal obj "side").getD .nullV with
  | .str s =>
    .ok (CardDeclaration.make
      (match getVal obj "id" with | some (.str i) => i | _ => "")
      s .unique ((getVal obj "deckID").getD .nullV) false)
  | _ => .error "TypeError: side.trim is not a function"

/-- The outcome of `parseCodeBlock` with its two callbacks reified. -/
structure ParseCodeBlockOutcome where
  returned : Option CardDeclaration
  yamlErrors : List YamlParseError
  incompletes : List (YObj × DeclarationRange)
deriving DecidableEq, Repr

/-- `CardDeclarationAssistant.parseCodeBlock` (lines 332-352): `null` for an
unknown fence or invalid YAML (the latter reported through `onParseError`); a
`CardDeclaration` when the mapping conforms to a declarable; otherwise, when it
still conforms to a defaultable, the mapping and its source range go to the
incomplete callback. The `TypeError` thrown by the constructor on a non-string
`side` is the `.error` case. -/
def parseCodeBlock (source : String) : Except String ParseCodeBlockOutcome :=
  match contentOfCodeBlock source with
  | none => .ok ⟨none, [], []⟩
  | some location =>
    match tryParseYaml (declarationSlice source location) with
    | (none, errs) => .ok ⟨none, errs, []⟩
    | (some obj, errs) =>
      match conformsToDeclarable obj with
      | (okD, obj1) =>
        if okD then do
          let d ← CardDeclaration.fromParsed obj1
          .ok ⟨some d, errs, []⟩
        else
          match conformsToDefaultable obj1 with
          | (okDef, obj2) =>
            if okDef then .ok ⟨none, errs, [(obj2, location)]⟩
            else .ok ⟨none, errs, []⟩

/-- `fullIDFromDeclaration` (src/src/TypeAssistant.ts lines 38-42): builds the
`FullID` (a `DeckableFullID` when a deck is set), validating the side with
`throwIfNotValid` — the throw that escapes for declarations whose `side` value
is present but invalid. `side` is passed as the raw parsed value so that both
`CardDeclaration` instances (`.str`) and raw conforming mappings can flow
through. -/
def fullIDFromDeclaration (id : String) (side : YVal) (deckID : YVal)
    (noteID : String) : Except String FullID := do
  let isF ← isFrontSideY side true
  if deckID.truthy then
    return { FullID.create noteID id isF with deckIDs := [deckID.render] }
  else
    return FullID.create noteID id isF

/-- `fullIDFromDeclaration` applied to a `CardDeclaration` instance. -/
def fullIDFromCardDeclaration (d : CardDeclaration) (noteID : String) :
    Except String FullID :=
  fullIDFromDeclaration d.id (.str d.side) d.deckID noteID

/-! ## Range engine (`DeclarationParser.rangeForSection`,
src/unnamed/part_008 lines 298-343) -/

/-- Stable insertion sort of cache items by start offset, modelling the
in-place `sort((a, b) => a.position.start.offset - b.position.start.offset)`
(part_008 line 310). -/
def insertItemByOffset (x : CacheItem) : List CacheItem → List CacheItem
  | [] => [x]
  | y :: ys =>
    if x.position.startOffset ≤ y.position.startOffset then x :: y :: ys
    else y :: insertItemByOffset x ys

def sortItemsByOffset : List CacheItem → List CacheItem
  | [] => []
  | x :: xs => insertItemByOffset x (sortItemsByOffset xs)

/-- The outer countdown loop (part_008 lines 313-320): starting from the end
of the sorted list, skip the delimiters that start after the section; the
first one that does not is the start delimiter's index. The argument counts
down from the list length. -/
def findStartIdxAux (secEnd : Nat) (os : List CacheItem) : Nat → Option Nat
  | 0 => none
  | k + 1 =>
    match os.get? k with
    | none => findStartIdxAux secEnd os k
    | some d =>
      if d.position.startOffset > secEnd then findStartIdxAux secEnd os k
      else some k

def findStartIdx (secEnd : Nat) (os : List CacheItem) : Option Nat :=
  findStartIdxAux secEnd os os.length

/-- The inner loop (part_008 lines 323-337): from index `j`, the first
delimiter satisfying the end predicate is the end; each one visited before it
is fed to the callback with its zero-based in-between position
`j - base` (where `base` is the index right after the start delimiter). The
callback is a state-passing fold to model the JS closures' mutation. -/
def rangeForSectionInner {σ : Type} (os : List CacheItem) (startDelimiter : CacheItem)
    (endPred : CacheItem → CacheItem → Bool)
    (step : σ → CacheItem → CacheItem → Nat → Nat → List CacheItem → σ)
    (base : Nat) : Nat → Nat → σ → Option CacheItem × σ
  | _, 0, st => (none, st)
  | j, fuel + 1, st =>
    match os.get? j with
    | none => (none, st)
    | some maybeEndDelimiter =>
      if endPred startDelimiter maybeEndDelimiter then (some maybeEndDelimiter, st)
      else rangeForSectionInner os startDelimiter endPred step base (j + 1) fuel
        (step st startDelimiter maybeEndDelimiter (j - base) j os)

/-- `DeclarationParser.rangeForSection` (part_008 lines 298-343). -/
def rangeForSection {σ : Type} (sect : SectionCache) (possibleEndDelimiters : List CacheItem)
    (endPred : CacheItem → CacheItem → Bool)
    (inBetweenCallback : Option (σ → CacheItem → CacheItem → Nat → Nat → List CacheItem → σ))
    (st : σ) : SectionRange × σ :=
  let orderedDelimiters := sortItemsByOffset possibleEndDelimiters
  match findStartIdx sect.position.endOffset orderedDelimiters with
  | none => (⟨none, none⟩, st)
  | some i =>
    match orderedDelimiters.get? i with
    | none => (⟨none, none⟩, st)
    | some startDelimiter =>
      let stepF := inBetweenCallback.getD (fun s _ _ _ _ _ => s)
      let (endD, st2) := rangeForSectionInner orderedDelimiters startDelimiter endPred stepF
        (i + 1) (i + 1) (orderedDelimiters.length - (i + 1)) st
      (⟨some startDelimiter, endD⟩, st2)

/-- The obsidian `CachedMetadata` slice the parser consumes. `frontmatter`
holds the object-valued entries of the frontmatter record. -/
structure CachedMetadata where
  frontmatter : Option (List (String × YObj)) := none
  headings : List HeadingCache := []
  sections : List SectionCache := []
deriving DecidableEq, Repr

/-- `DeclarationParser.headingRangeForSection` (part_008 lines 260-285):
candidates are all headings plus the thematic-break sections; the range ends
as soon as a heading at the level of the start heading, or above, appears; a
non-heading start delimiter is logged and the callback skipped. -/
def headingRangeForSection {σ : Type} (sect : SectionCache) (cache : CachedMetadata)
    (inBetweenCallback : Option (σ → HeadingCache → CacheItem → Nat → Nat → List CacheItem → σ))
    (st : σ) : SectionRange × σ :=
  let relevantSections : List CacheItem :=
    (cache.headings.map .ofHeading) ++
    ((cache.sections.filter (fun p => p.type = SECTION_TYPE_THEMATICBREAK)).map .ofSection)
  rangeForSection sect relevantSections
    (fun start endCandidate =>
      match start, endCandidate with
      | .ofHeading hs, .ofHeading he => hs.level ≥ he.level
      | _, _ => false)
    (match inBetweenCallback with
     | none => none
     | some f => some (fun s parentStart sectItem num idx ds =>
        match parentStart with
        | .ofHeading h => f s h sectItem num idx ds
        | _ => s))
    st

/-! ## Command strategies (src/src/declarations/commands) -/

inductive ParserKind where
  | alternateHeadings
  | headingAndDelimiter
  | headingIsFront
deriving DecidableEq, Repr

/-- The fields of a validated `CommandableDeclarable` that the parsers read. -/
structure CommandableView where
  name : String
  level : Nat
  delimiter : String := "horizontal rule"
  deckID : YVal := .nullV
deriving DecidableEq, Repr

/-- `GeneratedContentDeclaration` (CommandDeclarationParser composite lines
500-503). -/
structure GeneratedContentDeclaration where
  declaration : CardDeclaration
  range : SectionRange
deriving DecidableEq, Repr

/-- The mutable state of a `CommandDeclarationParser` instance. -/
structure ParserState where
  kind : ParserKind
  commandable : CommandableView
  generatedDeclarations : List GeneratedContentDeclaration := []
  /-- `HeadingAndDelimiterParser.lastFrontHeadingLevel`. -/
  lastFrontHeadingLevel : Option Nat := none
deriving DecidableEq, Repr

/-- `CommandDeclarationParser.generateDeclaration` (lines 519-532): appends a
generated note-scoped declaration. -/
def ParserState.generateDeclaration (st : ParserState) (id : String) (isFront : Bool)
    (startDelimiter endDelimiter : Option CacheItem) : ParserState :=
  { st with generatedDeclarations := st.generatedDeclarations ++
      [⟨CardDeclaration.make id (if isFront then "front" else "back") .note
          st.commandable.deckID true,
        ⟨startDelimiter, endDelimiter⟩⟩] }

/-- `CommandDeclarationParser.lastID` via `lastDeclaration` (lines 538-547):
throws when nothing has been generated yet. -/
def ParserState.lastID (st : ParserState) : Except String String :=
  match st.generatedDeclarations.getLast? with
  | none => .error "Expected at least one generated declaration."
  | some g => .ok g.declaration.id

/-- `HeadingsDeclarationParser.findNextHeading` (HeadingsCommandable.ts lines
64-72): the first delimiter after `index` that is a heading at the given level
or above; the for-loop is the `find?` over the dropped prefix. -/
def findNextHeading (headingLevel : Nat) (index : Nat)
    (delimiters : List CacheItem) : Option CacheItem :=
  (delimiters.drop (index + 1)).find? (fun d =>
    match d with
    | .ofHeading h => headingLevel ≥ h.level
    | _ => false)

/-- `HeadingsDeclarationParser.isOnSpecifiedLevel` (HeadingsCommandable.ts
lines 53-55). -/
def isOnSpecifiedLevel (commandLevel parentHeadingLevel : Nat) (h : HeadingCache) : Bool :=
  h.level = parentHeadingLevel + commandLevel

/-- `AlternateHeadingsParser.parse` (HeadingIsFront.ts composite lines
86-101): only headings exactly `parent + level` deep count; parity of the
generated list decides front/back; a back reuses `lastID`. -/
def alternateHeadingsParse (st : ParserState) (parentHeadingLevel : Nat)
    (inBetweenDelimiter : CacheItem) (index : Nat) (delimiters : List CacheItem) :
    Except String ParserState :=
  match inBetweenDelimiter with
  | .ofHeading h =>
    if ¬ isOnSpecifiedLevel st.commandable.level parentHeadingLevel h then .ok st
    else do
      let isFront := st.generatedDeclarations.length % 2 = 0
      let id ← if isFront then pure h.heading else st.lastID
      return st.generateDeclaration id isFront (some inBetweenDelimiter)
        (findNextHeading h.level index delimiters)
  | _ => .ok st

/-- `HeadingIsFrontParser.parse` (HeadingIsFront.ts composite lines 19-66):
for each heading at the specified level, a front with a zero-width range
collapsed onto the heading and a back from the heading's end to the next
heading at its level or above, both with the heading text as id. -/
def headingIsFrontParse (st : ParserState) (parentHeadingLevel : Nat)
    (inBetweenDelimiter : CacheItem) (index : Nat) (delimiters : List CacheItem) :
    Except String ParserState :=
  match inBetweenDelimiter with
  | .ofHeading h =>
    if ¬ isOnSpecifiedLevel st.commandable.level parentHeadingLevel h then .ok st
    else
      let startLocation := h.position.startOffset
      let endLocation := h.position.endOffset
      let st1 := st.generateDeclaration h.heading true
        (some (.bare ⟨startLocation, startLocation⟩))
        (some (.bare ⟨endLocation, endLocation⟩))
      .ok (st1.generateDeclaration h.heading false
        (some (.bare ⟨endLocation, endLocation⟩))
        (findNextHeading h.level index delimiters))
  | _ => .ok st

/-- The end-delimiter search of `HeadingAndDelimiterParser.parse` (part_007
lines 72-86): between fronts the end is the next thematic break, inside a back
the next heading at the front heading's level or above. -/
def headingAndDelimiterNext (st : ParserState) (index : Nat)
    (delimiters : List CacheItem) : Option CacheItem :=
  (delimiters.drop (index + 1)).find? (fun cand =>
    match st.lastFrontHeadingLevel with
    | none => isSectionType cand SECTION_TYPE_THEMATICBREAK
    | some lastFrontHeadingLevel =>
      match cand with
      | .ofHeading h2 => lastFrontHeadingLevel ≥ h2.level
      | _ => false)

/-- `HeadingAndDelimiterParser.parse` (part_007 lines 53-94): a heading at the
specified level starts a front (and records its level); a thematic break
starts a back reusing `lastID` (throwing when none was generated yet); other
delimiters are skipped. -/
def headingAndDelimiterParse (st : ParserState) (parentHeadingLevel : Nat)
    (inBetweenDelimiter : CacheItem) (index : Nat) (delimiters : List CacheItem) :
    Except String ParserState := do
  match inBetweenDelimiter with
  | .ofHeading h =>
    if ¬ isOnSpecifiedLevel st.commandable.level parentHeadingLevel h then return st
    let nextDelimiter := headingAndDelimiterNext st index delimiters
    let st1 := st.generateDeclaration h.heading st.lastFrontHeadingLevel.isNone
      (some inBetweenDelimiter) nextDelimiter
    return { st1 with lastFrontHeadingLevel := some h.level }
  | _ =>
    if isSectionType inBetweenDelimiter SECTION_TYPE_THEMATICBREAK then
      let id ← st.lastID
      let nextDelimiter := headingAndDelimiterNext st index delimiters
      let st1 := st.generateDeclaration id st.lastFrontHeadingLevel.isNone
        (some inBetweenDelimiter) nextDelimiter
      return { st1 with lastFrontHeadingLevel := none }
    else return st

/-- Dynamic dispatch of `CommandDeclarationParsable.parse`. -/
def parserStep (st : ParserState) (parentHeadingLevel : Nat) (d : CacheItem)
    (index : Nat) (delimiters : List CacheItem) : Except String ParserState :=
  match st.kind with
  | .alternateHeadings => alternateHeadingsParse st parentHeadingLevel d index delimiters
  | .headingAndDelimiter => headingAndDelimiterParse st parentHeadingLevel d index delimiters
  | .headingIsFront => headingIsFrontParse st parentHeadingLevel d index delimiters

/-! ## Command creation (CommandDeclarationAssistant, CommandDeclaration.ts
composite lines 110-208) -/

def AlternateHeadingsCommandNames : List String := ["alternate headings", "alt headings", "ah"]
def HeadingAndDelimiterCommandNames : List String := ["heading and delimiter", "hd"]
def HeadingIsFrontCommandNames : List String := ["heading is front", "hf"]

/-- `HeadingsCommandableAssistant.isLevelValid` (HeadingsCommandable.ts lines
29-41): a numeric level must be `≥ 1`; an unset level defaults to `1` (a
mutation); any other shape is invalid. -/
def isLevelValidY (obj : YObj) : Bool × YObj :=
  match getVal obj "level" with
  | some (.num n) => (n ≥ 1, obj)
  | none => (true, setKey obj "level" (.num 1))
  | some .nullV => (true, setKey obj "level" (.num 1))
  | some (.str _) => (false, obj)

/-- `HeadingAndDelimiterAssistant.isDelimiterValid` (part_007 lines 26-43):
`"hr"` is normalized to `"horizontal rule"` (the JS switch falls through to
the accepting case), an unset delimiter defaults, anything else is invalid. -/
def isDelimiterValidY (obj : YObj) : Bool × YObj :=
  match getVal obj "delimiter" with
  | none => (true, setKey obj "delimiter" (.str "horizontal rule"))
  | some (.str s) =>
    if s = "hr" then (true, setKey obj "delimiter" (.str "horizontal rule"))
    else if s = "horizontal rule" then (true, obj)
    else (false, obj)
  | some _ => (false, obj)

/-- Builds the parser state from a validated command mapping. -/
def mkParserState (kind : ParserKind) (obj : YObj) : ParserState :=
  { kind := kind
    commandable :=
      { name := match getVal obj "name" with | some (.str s) => s | _ => ""
        level := match getVal obj "level" with | some (.num n) => n | _ => 1
        delimiter := match getVal obj "delimiter" with | some (.str s) => s | _ => "horizontal rule"
        deckID := (getVal obj "deckID").getD .nullV } }

/-- `AlternateHeadingsAssistant.tryCreateParser` / `HeadingIsFrontAssistant.tryCreateParser`:
`conforms` demands an explicit `level` key; `isValid` is the level check. -/
def headingsTryCreateParser (kind : ParserKind) (obj : YObj) : Option ParserState :=
  if hasOwn obj "level" then
    match isLevelValidY obj with
    | (true, obj1) => some (mkParserState kind obj1)
    | (false, _) => none
  else none

/-- `HeadingAndDelimiterAssistant.tryCreateParser` (part_007 lines 12-24):
additionally validates/normalizes the delimiter. -/
def headingAndDelimiterTryCreateParser (obj : YObj) : Option ParserState :=
  if hasOwn obj "level" then
    match isLevelValidY obj with
    | (true, obj1) =>
      match isDelimiterValidY obj1 with
      | (true, obj2) => some (mkParserState .headingAndDelimiter obj2)
      | (false, _) => none
    | (false, _) => none
  else none

structure CreateParserOutcome where
  parser : Option ParserState
  yamlErrors : List YamlParseError
  invalidCommands : List (YObj × DeclarationRange)
deriving DecidableEq, Repr

/-- `CommandDeclarationAssistant.createParser` (CommandDeclaration.ts composite
lines 147-174): unknown fence or bad YAML give no parser (the latter via
`onParseError`); a mapping without a string `name` is not a command; a named
command that matches no strategy, or fails its strategy's validation, goes to
`onInvalidType` with its range. -/
def createParser (source : String) : CreateParserOutcome :=
  match contentOfCodeBlock source with
  | none => ⟨none, [], []⟩
  | some range =>
    match tryParseYaml (declarationSlice source range) with
    | (none, errs) => ⟨none, errs, []⟩
    | (some obj, errs) =>
      match getVal obj "name" with
      | some (.str name) =>
        let parser :=
          if AlternateHeadingsCommandNames.contains name then
            headingsTryCreateParser .alternateHeadings obj
          else if HeadingAndDelimiterCommandNames.contains name then
            headingAndDelimiterTryCreateParser obj
          else if HeadingIsFrontCommandNames.contains name then
            headingsTryCreateParser .headingIsFront obj
          else none
        match parser with
        | some p => ⟨some p, errs, []⟩
        | none => ⟨none, errs, [(obj, range)]⟩
      | _ => ⟨none, errs, []⟩

/-! ## Parsing pipeline (DeclarationParser, src/unnamed/part_008, and
ContentParser, src/src/ContentParser.ts) -/

/-- `DeclarationInfo` / `DeclarationCommandInfo` (part_008 lines 31-48). -/
structure DeclarationInfo where
  noteID : String
  declaration : YObj
  sect : SectionCache
  location : DeclarationRange
deriving DecidableEq, Repr

structure InvalidYamlInfo where
  source : String
  sect : SectionCache
  error : YamlParseError
deriving DecidableEq, Repr

/-- `PostParseInfo` (part_008 lines 12-26). -/
structure PostParseInfo where
  incompleteDeclarationInfos : List DeclarationInfo := []
  invalidDeclarationCommands : List DeclarationInfo := []
  multipleDefinedIDs : List FullID := []
  invalidYaml : List InvalidYamlInfo := []
deriving DecidableEq, Repr

/-- `DeclarationParser.getDeclarationFromSection` (part_008 lines 184-208):
only code sections are considered; the block's source is sliced out of the
file and handed to `parseCodeBlock`, whose callbacks append to the
diagnostics. -/
def getDeclarationFromSection (sect : SectionCache) (noteID : String)
    (fileContent : List Char) (parseInfo : PostParseInfo) :
    Except String (Option CardDeclaration × PostParseInfo) := do
  if ¬ (sect.type = SECTION_TYPE_CODE) then return (none, parseInfo)
  let source := String.mk (jsSlice fileContent sect.position.startOffset sect.position.endOffset)
  let out ← parseCodeBlock source
  let parseInfo := out.yamlErrors.foldl (fun pi e =>
    { pi with invalidYaml := pi.invalidYaml ++ [⟨source, sect, e⟩] }) parseInfo
  let parseInfo := out.incompletes.foldl (fun pi di =>
    { pi with incompleteDeclarationInfos :=
        pi.incompleteDeclarationInfos ++ [⟨noteID, di.1, sect, di.2⟩] }) parseInfo
  return (out.returned, parseInfo)

/-- `DeclarationParser.getAutoDeclarationsFromSection` (part_008 lines
217-250): builds a command parser from the sliced source (diagnostics go to
the callbacks) and, when one exists, drives it with
`headingRangeForSection`. -/
def getAutoDeclarationsFromSection (sect : SectionCache) (cache : CachedMetadata)
    (noteID : String) (fileContent : List Char) (parseInfo : PostParseInfo) :
    Except String (List GeneratedContentDeclaration × PostParseInfo) := do
  if ¬ (sect.type = SECTION_TYPE_CODE) then return ([], parseInfo)
  let source := String.mk (jsSlice fileContent sect.position.startOffset sect.position.endOffset)
  let out := createParser source
  let parseInfo := out.yamlErrors.foldl (fun pi e =>
    { pi with invalidYaml := pi.invalidYaml ++ [⟨source, sect, e⟩] }) parseInfo
  let parseInfo := out.invalidCommands.foldl (fun pi ci =>
    { pi with invalidDeclarationCommands :=
        pi.invalidDeclarationCommands ++ [⟨noteID, ci.1, sect, ci.2⟩] }) parseInfo
  match out.parser with
  | none => return ([], parseInfo)
  | some p =>
    let (_, st) := @headingRangeForSection (Except String ParserState) sect cache
      (some (fun s commandDeclarationSection inBetweenDelimiter _num index delimiters =>
        match s with
        | .error e => .error e
        | .ok st => parserStep st commandDeclarationSection.level inBetweenDelimiter
            index delimiters))
      (Except.ok p)
    let pFinal ← st
    return (pFinal.generatedDeclarations, parseInfo)

def supportedFrontmatterKeys : List String := [LANGUAGE, LANGUAGE_SHORT, "come through"]

def fmGet (fm : List (String × YObj)) (k : String) : Option YObj :=
  (fm.find? (fun kv => kv.1 = k)).map (fun kv => kv.2)

/-- `DeclarationParser.getDeclarationFromFrontmatter` (part_008 lines
168-175): the first supported frontmatter key whose value conforms to a
declarable mapping. -/
def getDeclarationFromFrontmatterAux (fm : List (String × YObj)) :
    List String → Option YObj
  | [] => none
  | k :: ks =>
    match fmGet fm k with
    | none => getDeclarationFromFrontmatterAux fm ks
    | some obj =>
      match conformsToDefaultable obj with
      | (false, _) => getDeclarationFromFrontmatterAux fm ks
      | (true, obj1) =>
        match conformsToDeclarable obj1 with
        | (true, obj2) => some obj2
        | (false, _) => getDeclarationFromFrontmatterAux fm ks

def getDeclarationFromFrontmatter (fm : List (String × YObj)) : Option YObj :=
  getDeclarationFromFrontmatterAux fm supportedFrontmatterKeys

/-- `FullID.toString` (src/FullID.ts lines 152-158); JS falsiness of the empty
string decides which form is used. -/
def FullID.toStr (id : FullID) : String :=
  let sideTruthy : Bool := match id.cardSide with | some s => s ≠ "" | none => false
  if id.noteID ≠ "" ∧ id.cardID ≠ "" ∧ sideTruthy = true then
    id.cardSide.getD "" ++ "@" ++ id.cardID ++ "@" ++ id.noteID
  else if id.noteID ≠ "" ∧ id.cardID ≠ "" then
    id.cardID ++ "@" ++ id.noteID
  else id.noteID

/-- The accumulator of `getAllIDsFromMetadata`: the result list, the
`parsedIDs` duplicate-detection set, and the diagnostics. -/
structure IDAccum where
  ids : List FullID := []
  parsedIDs : List String := []
  parseInfo : PostParseInfo := {}
deriving Repr

/-- `checkExistance` (part_008 lines 83-93): answers whether the id was seen
before (recording a duplicate diagnostic) and otherwise adds it to the set. -/
def checkExistance (acc : IDAccum) (id : FullID) : Bool × IDAccum :=
  let str := id.toStr
  if acc.parsedIDs.contains str then
    (true, { acc with parseInfo :=
      { acc.parseInfo with multipleDefinedIDs := acc.parseInfo.multipleDefinedIDs ++ [id] } })
  else
    (false, { acc with parsedIDs := acc.parsedIDs ++ [str] })

/-- `filter === undefined || (filter && filter(id))`. -/
def filterOK (filter : Option (FullID → Bool)) (id : FullID) : Bool :=
  match filter with
  | none => true
  | some f => f id

/-- The `checkExistance`-then-`filter` guard around `ids.push(id)` shared by
all three scans of `getAllIDsFromMetadata`. -/
def addIDChecked (filter : Option (FullID → Bool)) (acc : IDAccum) (id : FullID) : IDAccum :=
  match checkExistance acc id with
  | (true, acc1) => acc1
  | (false, acc1) =>
    if filterOK filter id then { acc1 with ids := acc1.ids ++ [id] } else acc1

/-- The projections `obj.id` / `obj.side` / `obj.deckID` of a conforming
mapping, as read by `fullIDFromDeclaration`. -/
def objFullID (obj : YObj) (noteID : String) : Except String FullID :=
  fullIDFromDeclaration
    (match getVal obj "id" with | some (.str i) => i | _ => "")
    ((getVal obj "side").getD .nullV)
    ((getVal obj "deckID").getD .nullV)
    noteID

/-- `DeclarationParser.getAllIDsFromMetadata` (part_008 lines 70-138):
frontmatter declaration first, then heading markers in outline order, then the
sections (explicit declaration, then auto-generated declarations). Thrown JS
errors (e.g. from `fullIDFromDeclaration` on an invalid side value) propagate
as `.error`. -/
def getAllIDsFromMetadata (noteID : String) (fileContent : List Char)
    (cache : CachedMetadata) (filter : Option (FullID → Bool)) :
    Except String (List FullID × PostParseInfo) := do
  let acc : IDAccum := {}
  -- Check frontmatter for card declaration
  let acc ← match cache.frontmatter with
    | none => pure acc
    | some fm =>
      match getDeclarationFromFrontmatter fm with
      | none => pure acc
      | some declObj => do
        let id ← objFullID declObj noteID
        pure (addIDChecked filter acc id)
  -- Look for ID declarations in headings
  let acc := cache.headings.foldl (fun acc currentHeading =>
    match findFullIDInText currentHeading.heading noteID with
    | none => acc
    | some id => addIDChecked filter acc id) acc
  -- Look for declarations in root level Markdown blocks
  let acc ← cache.sections.foldlM (fun acc sect => do
    let (explicitDecl, pi1) ← getDeclarationFromSection sect noteID fileContent acc.parseInfo
    let acc := { acc with parseInfo := pi1 }
    let acc ← match explicitDecl with
      | none => pure acc
      | some d => do
        let id ← fullIDFromCardDeclaration d noteID
        pure (addIDChecked filter acc id)
    let (gens, pi2) ← getAutoDeclarationsFromSection sect cache noteID fileContent acc.parseInfo
    let acc := { acc with parseInfo := pi2 }
    gens.foldlM (fun acc g => do
      let id ← fullIDFromCardDeclaration g.declaration noteID
      pure (addIDChecked filter acc id)) acc) acc
  return (acc.ids, acc.parseInfo)

/-! ## Card content resolution (ContentParser, src/src/ContentParser.ts) -/

/-- `MaybeParsedCard` (ContentParser.ts lines 34-39). -/
structure MaybeParsedCard where
  frontID : Option FullID := none
  frontMarkdown : Option (List Char) := none
  backID : Option FullID := none
  backMarkdown : Option (List Char) := none
deriving DecidableEq, Repr

/-- `ParsedCardResult` (ContentParser.ts lines 12-15); `complete` is only ever
populated with a card that passes `isComplete`. -/
structure ParsedCardResult where
  complete : Option MaybeParsedCard
  incomplete : Option MaybeParsedCard
deriving DecidableEq, Repr

/-- `ParseResult = Record<CardID, MaybeParsedCard>`: a JS object in key
insertion order. -/
abbrev ParseResult := List (String × MaybeParsedCard)

def prHasOwn (r : ParseResult) (k : String) : Bool := r.any (fun kv => kv.1 = k)

def prGet (r : ParseResult) (k : String) : Option MaybeParsedCard :=
  (r.find? (fun kv => kv.1 = k)).map (fun kv => kv.2)

def prSet (r : ParseResult) (k : String) (v : MaybeParsedCard) : ParseResult :=
  if prHasOwn r k then r.map (fun kv => if kv.1 = k then (k, v) else kv)
  else r ++ [(k, v)]

/-- `ContentParser.isComplete` (ContentParser.ts lines 196-203). -/
def isComplete (card : MaybeParsedCard) : Bool :=
  card.frontID.isSome && card.frontMarkdown.isSome &&
  card.backID.isSome && card.backMarkdown.isSome

/-- `PopulationPredicate` (ContentParser.ts lines 79-92). -/
structure PopulationPredicate where
  iterationFilter : Option (IdentifiedContentInfo → Bool) := none
  isDone : Option (IdentifiedContentInfo → MaybeParsedCard → Bool) := none

/-- `ContentParser.findAllContentInfosInFile` (ContentParser.ts lines
233-312): heading-marker sides (range to the next heading at the same level or
above), explicit declarations (range from `headingRangeForSection`), then the
auto-generated declarations with their strategy-computed ranges. -/
def findAllContentInfosInFile (noteID : String) (fileContent : List Char)
    (cache : CachedMetadata) : Except String (List IdentifiedContentInfo) := do
  let headings := cache.headings
  let headingInfos := (List.range headings.length).filterMap (fun headingIndex =>
    match headings.get? headingIndex with
    | none => none
    | some currentHeading =>
      match findFullIDInText currentHeading.heading noteID with
      | none => none
      | some id =>
        let nextFrontHeadingStartPos :=
          (headings.drop (headingIndex + 1)).find? (fun nh => nh.level ≤ currentHeading.level)
        some { id := id
               scope := .note
               contentInfo :=
                 { range := ⟨some (.ofHeading currentHeading),
                     nextFrontHeadingStartPos.map .ofHeading⟩
                   sect := ⟨SECTION_TYPE_HEADING, currentHeading.position⟩ } })
  let sectionInfos ← cache.sections.foldlM (fun (acc : List IdentifiedContentInfo) sect => do
    let (decl, _) ← getDeclarationFromSection sect noteID fileContent {}
    match decl with
    | none => pure acc
    | some d => do
      let id ← fullIDFromCardDeclaration d noteID
      let (range, _) := @headingRangeForSection Unit sect cache none ()
      let info : IdentifiedContentInfo :=
        { id := id, scope := d.idScope, contentInfo := { sect := sect, range := range } }
      pure (acc ++ [info])) []
  let autoInfos ← cache.sections.foldlM (fun (acc : List IdentifiedContentInfo) sect => do
    let (gens, _) ← getAutoDeclarationsFromSection sect cache noteID fileContent {}
    gens.foldlM (fun (acc : List IdentifiedContentInfo) g => do
      let id ← fullIDFromCardDeclaration g.declaration noteID
      let info : IdentifiedContentInfo :=
        { id := id, scope := g.declaration.idScope
          contentInfo := { sect := sect, range := g.range } }
      pure (acc ++ [info])) acc) []
  return headingInfos ++ sectionInfos ++ autoInfos

/-- The loop of `ContentParser.getContentFromInfos` (ContentParser.ts lines
337-355): populate the side's markdown and id into the accumulated card,
stopping as soon as the `isDone` predicate fires. -/
def getContentFromInfosLoop (fileContent : List Char)
    (contentInfos : List IdentifiedContentInfo)
    (isDone : Option (IdentifiedContentInfo → MaybeParsedCard → Bool))
    (options : Option ParseOptions) :
    List IdentifiedContentInfo → ParseResult → Except String ParseResult
  | [], result => .ok result
  | idContentInfo :: rest, result => do
    let cardID ← idContentInfo.id.cardIDOrThrow
    let result := if prHasOwn result cardID then result else prSet result cardID {}
    let card := (prGet result cardID).getD {}
    let isF ← idContentInfo.id.isFrontSide
    let content := getContentFromInfo fileContent idContentInfo contentInfos options
    let card :=
      if isF then { card with frontMarkdown := some content, frontID := some idContentInfo.id }
      else { card with backMarkdown := some content, backID := some idContentInfo.id }
    let result := prSet result cardID card
    match isDone with
    | some p =>
      if p idContentInfo card then .ok result
      else getContentFromInfosLoop fileContent contentInfos isDone options rest result
    | none => getContentFromInfosLoop fileContent contentInfos isDone options rest result

/-- `ContentParser.getContentFromInfos` (ContentParser.ts lines 322-356). -/
def getContentFromInfos (fileContent : List Char)
    (contentInfos : List IdentifiedContentInfo) (result : ParseResult)
    (predicate : Option PopulationPredicate) (options : Option ParseOptions) :
    Except String ParseResult :=
  let filteredContentInfos :=
    match predicate.bind (fun p => p.iterationFilter) with
    | some f => contentInfos.filter f
    | none => contentInfos
  getContentFromInfosLoop fileContent contentInfos
    (predicate.bind (fun p => p.isDone)) options filteredContentInfos result

/-- `ContentParser.processParseResult` (ContentParser.ts lines 175-194). -/
def processParseResult (maybeIncompleteCards : ParseResult) :
    List (String × ParsedCardResult) :=
  maybeIncompleteCards.map (fun kv =>
    (kv.1, if isComplete kv.2 then ⟨some kv.2, none⟩ else ⟨none, some kv.2⟩))

/-! ## Vault scanning (`ContentParser.getCard`) -/

/-- The vault file snapshot the resolver reads: its path, its text
(`vault.cachedRead`), and its outline (`metadataCache.getFileCache`, absent
when the host has no cache for the file). -/
structure VaultFile where
  path : String
  content : List Char
  cache : Option CachedMetadata
deriving DecidableEq, Repr

/-- `FileParser.fileCacheOrThrow` (src/unnamed/part_011 lines 27-32): throws a
`FileParserError` when no cached metadata is available. -/
def fileCacheOrThrow (file : VaultFile) : Except String CachedMetadata :=
  match file.cache with
  | none => .error ("FileParserError: No cached metadata available for " ++ file.path ++ ".")
  | some cache => .ok cache

/-- `ContentParser.getContentFromFile` (ContentParser.ts lines 205-224). -/
def getContentFromFile (file : VaultFile) (result : ParseResult)
    (predicate : Option PopulationPredicate) (options : Option ParseOptions) :
    Except String ParseResult := do
  let fileContent := file.content
  let cache ← fileCacheOrThrow file
  let infos ← findAllContentInfosInFile file.path fileContent cache
  getContentFromInfos fileContent infos result predicate options

/-- Side-insensitive `FullID.isEqual`, the form the `getCard` predicates use
(it can never throw: the side getters are short-circuited away). -/
def FullID.isEqualSideInsensitiveB (a b : FullID) : Bool :=
  ¬ (a.cardID = "") && ¬ (b.cardID = "") && a.isNoteEqual b && a.isCardEqual b

theorem isEqual_sideInsensitive (a b : FullID) :
    a.isEqual b true = .ok (a.isEqualSideInsensitiveB b) := by
  unfold FullID.isEqual FullID.isEqualSideInsensitiveB
  split
  · next h =>
    rcases Bool.or_eq_true _ _ |>.mp h with h1 | h1 <;>
      simp [decide_eq_true_eq.mp h1]
  · next h =>
    rw [Bool.or_eq_true] at h
    push_neg at h
    split
    · next h2 => simp_all
    · next h2 =>
      split
      · next h3 => simp_all
      · next h3 => simp_all

/-- The `PopulationPredicate` built by `ContentParser.getCard` (ContentParser.ts
lines 119-145): `Unique`-scope infos are matched by card id alone,
`NoteScoped` infos by side-insensitive full equality; `isDone` fires once the
accumulated card is complete and its front id matches the same way. -/
def getCardPredicate (id : FullID) : PopulationPredicate :=
  { iterationFilter := some (fun idContentInfo =>
      match idContentInfo.scope with
      | .unique => idContentInfo.id.isCardEqual id
      | .note => idContentInfo.id.isEqualSideInsensitiveB id)
    isDone := some (fun idContentInfo maybeParsedCard =>
      if ¬ isComplete maybeParsedCard then false
      else
        match idContentInfo.scope with
        | .unique => (maybeParsedCard.frontID.getD {noteID := "", cardID := "", cardSide := none}).isCardEqual id
        | .note => (maybeParsedCard.frontID.getD {noteID := "", cardID := "", cardSide := none}).isEqualSideInsensitiveB id) }

/-- `ContentParser.getAllFilesSortedByLikelihood`'s comparator (ContentParser.ts
lines 479-491). -/
def likelihoodComparator (id : FullID) (hints : List String)
    (fileA fileB : VaultFile) : Int :=
  if fileA.path = id.noteID then -1
  else if fileB.path = id.noteID then 1
  else if hints.contains fileA.path then -1
  else if hints.contains fileB.path then 1
  else 0

/-- `getAllFilesSortedByLikelihood` (ContentParser.ts lines 477-492), modelled
as a stable insertion sort over the comparator. (The JS comparator is not a
consistent comparator — two hinted files each compare before the other — so
`Array.prototype.sort` leaves the exact permutation implementation-defined;
the stable sort realizes one permissible order and, as proved below, any
comparator-respecting order puts the target-path files first, then the hinted
files, then the rest.) -/
def insertFileByLikelihood (id : FullID) (hints : List String) (x : VaultFile) :
    List VaultFile → List VaultFile
  | [] => [x]
  | y :: ys =>
    if likelihoodComparator id hints x y ≤ 0 then x :: y :: ys
    else y :: insertFileByLikelihood id hints x ys

def getAllFilesSortedByLikelihood (id : FullID) (files : List VaultFile)
    (hints : List String) : List VaultFile :=
  match files with
  | [] => []
  | x :: xs => insertFileByLikelihood id hints x (getAllFilesSortedByLikelihood id xs hints)

/-- The file loop of `ContentParser.getCard` (ContentParser.ts lines 150-158):
scan the files one at a time, stopping as soon as the accumulated entry for
the requested card id is complete. -/
def getCardLoop (cardID : String) (predicate : Option PopulationPredicate)
    (options : Option ParseOptions) :
    List VaultFile → ParseResult → Except String ParseResult
  | [], parseResult => .ok parseResult
  | file :: rest, parseResult => do
    let parseResult ← getContentFromFile file parseResult predicate options
    if prHasOwn parseResult cardID ∧ isComplete ((prGet parseResult cardID).getD {}) then
      .ok parseResult
    else getCardLoop cardID predicate options rest parseResult

def notFoundResult : ParsedCardResult := ⟨none, none⟩

/-- `ContentParser.getCard` (ContentParser.ts lines 117-168). -/
def getCard (id : FullID) (files : List VaultFile) (options : Option ParseOptions) :
    Except String ParsedCardResult := do
  let predicate := getCardPredicate id
  let cardID ← id.cardIDOrThrow
  let likelyNoteIDs := (options.bind (fun o => o.likelyNoteIDs)).getD []
  let parseResult ← getCardLoop cardID (some predicate) options
    (getAllFilesSortedByLikelihood id files likelyNoteIDs) []
  if ¬ prHasOwn parseResult cardID then return notFoundResult
  let separated := processParseResult parseResult
  match (separated.find? (fun kv => kv.1 = cardID)).map (fun kv => kv.2) with
  | some resultCard => return resultCard
  | none => return notFoundResult

/-! ### Claim C5 -/

theorem prHasOwn_of_prGet_some {r : ParseResult} {k : String} {c : MaybeParsedCard}
    (h : prGet r k = some c) : prHasOwn r k = true := by
  unfold prGet at h
  unfold prHasOwn
  rcases Option.map_eq_some'.mp h with ⟨kv, hfind, -⟩
  rw [List.any_eq_true]
  refine ⟨kv, List.mem_of_find?_eq_some hfind, ?_⟩
  have := List.find?_some hfind
  simpa using this

/-- C5: for a requested id with a non-empty card id, once the file scan itself
has completed, `getCard` answers with a typed result: no entry for the card id
gives `{complete := none, incomplete := none}`; an incomplete entry (only one
side found) gives `complete := none` and the partial card as `incomplete`; a
complete entry gives the card as `complete` and `incomplete := none`. The
missing-card condition is never signalled by a thrown error. -/
theorem getCard_typed_result (id : FullID) (files : List VaultFile)
    (options : Option ParseOptions) (parseResult : ParseResult)
    (hcard : id.cardID ≠ "")
    (hloop : getCardLoop id.cardID (some (getCardPredicate id)) options
      (getAllFilesSortedByLikelihood id files
        ((options.bind (fun o => o.likelyNoteIDs)).getD [])) [] = .ok parseResult) :
    (prHasOwn parseResult id.cardID = false →
      getCard id files options = .ok ⟨none, none⟩) ∧
    (∀ card, prGet parseResult id.cardID = some card →
      (isComplete card = false → getCard id files options = .ok ⟨none, some card⟩) ∧
      (isComplete card = true → getCard id files options = .ok ⟨some card, none⟩)) := by
  have hthrow : id.cardIDOrThrow = .ok id.cardID := by
    unfold FullID.cardIDOrThrow
    rw [if_neg hcard]
  have hgc : getCard id files options =
      (if ¬ prHasOwn parseResult id.cardID then pure notFoundResult
       else
        match ((processParseResult parseResult).find?
            (fun kv => kv.1 = id.cardID)).map (fun kv => kv.2) with
        | some resultCard => pure resultCard
        | none => pure notFoundResult) := by
    unfold getCard
    rw [hthrow]
    simp only [bind, Except.bind]
    rw [hloop]
    rfl
  constructor
  · intro hno
    rw [hgc, if_pos (by simp [hno])]
    rfl
  · intro card hget
    have hyes := prHasOwn_of_prGet_some hget
    rw [hgc, if_neg (by simp [hyes])]
    unfold prGet at hget
    rcases Option.map_eq_some'.mp hget with ⟨kv, hfind, hkv2⟩
    have hkey : kv.1 = id.cardID := by
      have := List.find?_some hfind
      exact decide_eq_true_eq.mp this
    have hfindp : (processParseResult parseResult).find? (fun kv => kv.1 = id.cardID)
        = some (kv.1, if isComplete kv.2 then ⟨some kv.2, none⟩ else ⟨none, some kv.2⟩) := by
      unfold processParseResult
      rw [List.find?_map]
      have heq : ((fun kv : String × ParsedCardResult => decide (kv.1 = id.cardID)) ∘
          (fun kv : String × MaybeParsedCard =>
            (kv.1, if isComplete kv.2 then (⟨some kv.2, none⟩ : ParsedCardResult)
              else ⟨none, some kv.2⟩))) =
          (fun kv : String × MaybeParsedCard => decide (kv.1 = id.cardID)) := by
        funext kv
        rfl
      rw [heq, hfind]
      rfl
    rw [hfindp]
    subst hkv2
    constructor
    · intro hinc
      simp [hinc]
      rfl
    · intro hcomp
      simp [hcomp]
      rfl

/-- Concrete data for the C5 witness: a single note declaring only the front
side of `card2`. -/
def c5FileA : VaultFile :=
  { path := "noteA.md"
    content := ("# Q\n```ct\nside: front\nid: card2\n```\nFront text\n").data
    cache := some
      { headings := [⟨"Q", 1, ⟨0, 3⟩⟩]
        sections := [⟨"heading", ⟨0, 3⟩⟩, ⟨"code", ⟨4, 35⟩⟩, ⟨"paragraph", ⟨36, 46⟩⟩] } }

def c5ID : FullID := { noteID := "noteA.md", cardID := "card2", cardSide := none }

def c5ParseResult : ParseResult :=
  match getCardLoop c5ID.cardID (some (getCardPredicate c5ID)) none
      (getAllFilesSortedByLikelihood c5ID [c5FileA] []) [] with
  | .ok r => r
  | .error _ => []

/-- Witness for C5: the loop over the one-file vault succeeds, the entry for
`card2` is incomplete (only the front was found), and `getCard` reports it as
the typed `incomplete` result. -/
theorem getCard_typed_result_witness :
    c5ID.cardID ≠ "" ∧
    (getCardLoop c5ID.cardID (some (getCardPredicate c5ID)) none
      (getAllFilesSortedByLikelihood c5ID [c5FileA]
        ((Option.bind (none : Option ParseOptions) (fun o => o.likelyNoteIDs)).getD [])) []
      = .ok c5ParseResult) ∧
    ((prHasOwn c5ParseResult c5ID.cardID = false →
      getCard c5ID [c5FileA] none = .ok ⟨none, none⟩) ∧
    (∀ card, prGet c5ParseResult c5ID.cardID = some card →
      (isComplete card = false → getCard c5ID [c5FileA] none = .ok ⟨none, some card⟩) ∧
      (isComplete card = true → getCard c5ID [c5FileA] none = .ok ⟨some card, none⟩))) :=
  ⟨by decide, by decide,
    getCard_typed_result c5ID [c5FileA] none c5ParseResult (by decide) (by decide)⟩

/-- The source text of a section, as the parsing functions slice it out of the
file content (`fileContent.substring(section.position.startOffset, section.position.endOffset)`). -/
def sectionSource (sect : SectionCache) (fileContent : List Char) : String :=
  String.mk (jsSlice fileContent sect.position.startOffset sect.position.endOffset)

/-- Concrete document for the C6 counterexample: one well-formed fenced
declaration whose `side` value `x` is not one of `f`, `front`, `b`, `back`. -/
def c6BadText : List Char := ("```ct\nside: x\nid: aa\n```").data

def c6BadCache : CachedMetadata := { sections := [⟨"code", ⟨0, 24⟩⟩] }

/-- Counterexample for C6: the missing-cache `FileParserError` is NOT the only
condition in the parsing path that propagates as a thrown error. A declaration
whose YAML is perfectly well formed but whose `side` value is invalid makes
`fullIDFromDeclaration` (through `FullID.isFrontSide`) throw a plain `Error`,
aborting `getAllIDsFromMetadata` even though the metadata cache is present. -/
theorem invalid_side_throws_in_parsing_path :
    getAllIDsFromMetadata "n.md" c6BadText c6BadCache none
      = .error "Side is not valid: x" := by decide

/-- Concrete two-block document for C6: the first fenced block holds malformed
YAML (`side front`, no key-value separator), the second a complete declaration. -/
def c6ContText : List Char :=
  ("```ct\nside front\n```\n```ct\nside: back\nid: aa\n```\n").data

def c6ContCache : CachedMetadata :=
  { sections := [⟨"code", ⟨0, 20⟩⟩, ⟨"code", ⟨21, 48⟩⟩] }

def c6BadSect : SectionCache := ⟨"code", ⟨0, 20⟩⟩

def c6NoCacheFile : VaultFile := { path := "nocache.md", content := [], cache := none }

/-- C6 (amended): malformed YAML in a declaration block is soft:
`tryParseYaml` returns `null` and hands the error to the `onParseError`
callback (the function is total, so no exception escapes it), and
`getDeclarationFromSection` then returns no declaration while accumulating the
diagnostic, so the scan continues — concretely, in the two-block document the
declaration after the malformed block is still parsed (both the card and the
command pass report the bad YAML, hence two diagnostics). A missing metadata
cache is a thrown `FileParserError` exactly when the cache is absent, and it
aborts `getContentFromFile`. But, contrary to the claim, that throw is not the
only one in the parsing path: an invalid `side` value in an otherwise
well-formed declaration also propagates as a thrown error. -/
theorem malformed_yaml_soft_missing_cache_throws :
    (∀ yaml e, parseYamlM (strToLower yaml) = .error e →
      tryParseYaml yaml = (none, [e])) ∧
    (∀ sect noteID fileContent pi e loc,
      sect.type = SECTION_TYPE_CODE →
      contentOfCodeBlock (sectionSource sect fileContent) = some loc →
      tryParseYaml (declarationSlice (sectionSource sect fileContent) loc)
        = (none, [e]) →
      getDeclarationFromSection sect noteID fileContent pi
        = .ok (none, { pi with invalidYaml :=
            pi.invalidYaml ++ [⟨sectionSource sect fileContent, sect, e⟩] })) ∧
    (∀ file : VaultFile,
      (fileCacheOrThrow file
          = .error ("FileParserError: No cached metadata available for "
              ++ file.path ++ ".")
        ↔ file.cache = none) ∧
      (∀ result predicate options, file.cache = none →
        getContentFromFile file result predicate options
          = .error ("FileParserError: No cached metadata available for "
              ++ file.path ++ "."))) ∧
    ((getAllIDsFromMetadata "n.md" c6ContText c6ContCache none).map
        (fun p => (p.1.map FullID.toStr, p.2.invalidYaml.length))
      = .ok (["b@aa@n.md"], 2)) ∧
    (∃ text cache, getAllIDsFromMetadata "n.md" text cache none
        = .error "Side is not valid: x") := by
  refine ⟨?_, ?_, ?_, by decide, ⟨c6BadText, c6BadCache, by decide⟩⟩
  · intro yaml e h
    unfold tryParseYaml
    rw [h]
  · intro sect noteID fileContent pi e loc hcode hloc hbad
    have hpc : parseCodeBlock (sectionSource sect fileContent)
        = .ok ⟨none, [e], []⟩ := by
      unfold parseCodeBlock
      rw [hloc]
      simp only [hbad]
    unfold getDeclarationFromSection
    rw [if_neg (by simp [hcode])]
    unfold sectionSource at hpc
    simp only [bind, Except.bind]
    rw [hpc]
    rfl
  · intro file
    refine ⟨⟨?_, ?_⟩, ?_⟩
    · intro h
      match hc : file.cache with
      | none => rfl
      | some c =>
        unfold fileCacheOrThrow at h
        rw [hc] at h
        exact absurd h (by simp)
    · intro h
      unfold fileCacheOrThrow
      rw [h]
    · intro result predicate options h
      have hthrow : fileCacheOrThrow file
          = .error ("FileParserError: No cached metadata available for "
              ++ file.path ++ ".") := by
        unfold fileCacheOrThrow
        rw [h]
      unfold getContentFromFile
      simp only [bind, Except.bind]
      rw [hthrow]

/-- Witness for C6: the malformed first block of the concrete two-block
document instantiates every hypothesised conjunct of the amended theorem. -/
theorem malformed_yaml_soft_missing_cache_throws_witness :
    (parseYamlM (strToLower "side front") = .error ⟨"YAMLParseError"⟩ ∧
      tryParseYaml "side front" = (none, [⟨"YAMLParseError"⟩])) ∧
    ((c6BadSect.type = SECTION_TYPE_CODE ∧
      contentOfCodeBlock (sectionSource c6BadSect c6ContText) = some ⟨6, 17⟩ ∧
      tryParseYaml (declarationSlice (sectionSource c6BadSect c6ContText) ⟨6, 17⟩)
        = (none, [⟨"YAMLParseError"⟩])) ∧
      getDeclarationFromSection c6BadSect "n.md" c6ContText {}
        = .ok (none, { ({} : PostParseInfo) with invalidYaml :=
            ({} : PostParseInfo).invalidYaml ++
              [⟨sectionSource c6BadSect c6ContText, c6BadSect, ⟨"YAMLParseError"⟩⟩] })) ∧
    (c6NoCacheFile.cache = none ∧
      getContentFromFile c6NoCacheFile [] none none
        = .error ("FileParserError: No cached metadata available for "
            ++ c6NoCacheFile.path ++ ".")) :=
  ⟨⟨by decide,
    malformed_yaml_soft_missing_cache_throws.1 "side front" ⟨"YAMLParseError"⟩
      (by decide)⟩,
   ⟨⟨by decide, by decide, by decide⟩,
    malformed_yaml_soft_missing_cache_throws.2.1 c6BadSect "n.md" c6ContText {}
      ⟨"YAMLParseError"⟩ ⟨6, 17⟩ (by decide) (by decide) (by decide)⟩,
   ⟨by decide,
    (malformed_yaml_soft_missing_cache_throws.2.2.1 c6NoCacheFile).2 [] none none
      (by decide)⟩⟩

/-! ### Helper lemmas about the object model (`hasOwn` / `getVal` / `setKey`) -/

theorem find?_keyUpdate (l : YObj) (k k' : String) (v : YVal) (h : ¬ k' = k) :
    (l.map (fun kv => if kv.1 = k then (k, v) else kv)).find? (fun kv => kv.1 = k')
      = l.find? (fun kv => kv.1 = k') := by
  have hkk' : ¬ k = k' := fun hh => h hh.symm
  induction l with
  | nil => rfl
  | cons kv rest ih =>
    simp only [List.map_cons]
    by_cases hk : kv.1 = k
    · rw [if_pos hk]
      rw [List.find?_cons_of_neg _ (by simp [hkk'])]
      rw [List.find?_cons_of_neg _ (by simp [hk, hkk'])]
      exact ih
    · rw [if_neg hk]
      by_cases hk' : kv.1 = k'
      · rw [List.find?_cons_of_pos _ (by simp [hk']),
          List.find?_cons_of_pos _ (by simp [hk'])]
      · rw [List.find?_cons_of_neg _ (by simp [hk']),
          List.find?_cons_of_neg _ (by simp [hk'])]
        exact ih

theorem any_keyUpdate (l : YObj) (k k' : String) (v : YVal) (h : ¬ k' = k) :
    (l.map (fun kv => if kv.1 = k then (k, v) else kv)).any (fun kv => kv.1 = k')
      = l.any (fun kv => kv.1 = k') := by
  have hkk' : ¬ k = k' := fun hh => h hh.symm
  induction l with
  | nil => rfl
  | cons kv rest ih =>
    simp only [List.map_cons, List.any_cons, ih]
    by_cases hk : kv.1 = k
    · rw [if_pos hk]
      have h1 : (decide (((k, v) : String × YVal).1 = k')) = false := by
        simp [hkk']
      have h2 : (decide (kv.1 = k')) = false := by
        simp [hk, hkk']
      rw [h1, h2]
    · rw [if_neg hk]

theorem getVal_setKey_ne (obj : YObj) (k k' : String) (v : YVal) (h : ¬ k' = k) :
    getVal (setKey obj k v) k' = getVal obj k' := by
  have hkk' : ¬ k = k' := fun hh => h hh.symm
  unfold setKey getVal
  split
  · rw [find?_keyUpdate obj k k' v h]
  · rw [List.find?_append]
    have h1 : ([(k, v)] : YObj).find? (fun kv => kv.1 = k') = none := by
      simp [List.find?, hkk']
    rw [h1]
    cases obj.find? (fun kv => kv.1 = k') <;> rfl

theorem hasOwn_setKey_ne (obj : YObj) (k k' : String) (v : YVal) (h : ¬ k' = k) :
    hasOwn (setKey obj k v) k' = hasOwn obj k' := by
  have hkk' : ¬ k = k' := fun hh => h hh.symm
  unfold setKey hasOwn
  split
  · rw [any_keyUpdate obj k k' v h]
  · rw [List.any_append]
    have h1 : ([(k, v)] : YObj).any (fun kv => kv.1 = k') = false := by
      simp [hkk']
    rw [h1, Bool.or_false]

theorem hasOwn_setKey_self (obj : YObj) (k : String) (v : YVal) :
    hasOwn (setKey obj k v) k = true := by
  unfold setKey
  split
  · next hh =>
    unfold hasOwn at hh ⊢
    rw [List.any_eq_true] at hh ⊢
    obtain ⟨kv, hmem, hp⟩ := hh
    exact ⟨(k, v), List.mem_map.mpr ⟨kv, hmem, by simp [decide_eq_true_eq.mp hp]⟩,
      by simp⟩
  · unfold hasOwn
    rw [List.any_eq_true]
    exact ⟨(k, v), by simp, by simp⟩

theorem getVal_none_of_not_hasOwn (obj : YObj) (k : String)
    (h : hasOwn obj k = false) : getVal obj k = none := by
  unfold hasOwn at h
  unfold getVal
  rw [List.any_eq_false] at h
  rw [List.find?_eq_none.mpr (fun kv hmem => h kv hmem)]
  rfl

theorem getVal_setKey_self (obj : YObj) (k : String) (v : YVal) :
    getVal (setKey obj k v) k = some v := by
  unfold setKey
  split
  · next hh =>
    unfold getVal
    unfold hasOwn at hh
    induction obj with
    | nil => simp at hh
    | cons kv rest ih =>
      simp only [List.map_cons]
      by_cases hk : kv.1 = k
      · rw [if_pos hk, List.find?_cons_of_pos _ (by simp)]
        rfl
      · rw [if_neg hk, List.find?_cons_of_neg _ (by simp [hk])]
        exact ih (by simpa [List.any_cons, hk] using hh)
  · next hh =>
    unfold getVal
    rw [List.find?_append]
    have h1 : obj.find? (fun kv => kv.1 = k) = none := by
      rw [List.find?_eq_none]
      intro kv hmem hp
      unfold hasOwn at hh
      exact hh (List.any_eq_true.mpr ⟨kv, hmem, hp⟩)
    rw [h1, List.find?_cons_of_pos _ (by simp)]
    rfl

theorem hasOwn_of_getVal_some (obj : YObj) (k : String) (v : YVal)
    (h : getVal obj k = some v) : hasOwn obj k = true := by
  unfold getVal at h
  unfold hasOwn
  rw [Option.map_eq_some'] at h
  obtain ⟨kv, hfind, _⟩ := h
  have hp := List.find?_some hfind
  exact List.any_eq_true.mpr ⟨kv, List.mem_of_find?_eq_some hfind, hp⟩

theorem getVal_isSome_of_hasOwn (obj : YObj) (k : String)
    (h : hasOwn obj k = true) : ∃ v, getVal obj k = some v := by
  unfold hasOwn at h
  unfold getVal
  rw [List.any_eq_true] at h
  obtain ⟨kv, hmem, hp⟩ := h
  have h2 : (obj.find? (fun kv => kv.1 = k)).isSome := by
    rw [List.find?_isSome]
    exact ⟨kv, hmem, hp⟩
  obtain ⟨r, hr⟩ := Option.isSome_iff_exists.mp h2
  exact ⟨r.2, by rw [hr]; rfl⟩

theorem conformsToDeckable_fst (obj : YObj) : (conformsToDeckable obj).1 = true := by
  unfold conformsToDeckable
  split <;> rfl

theorem conformsToDeckable_keys (obj : YObj) (k : String) (h : ¬ k = "deckID") :
    getVal (conformsToDeckable obj).2 k = getVal obj k ∧
    hasOwn (conformsToDeckable obj).2 k = hasOwn obj k := by
  unfold conformsToDeckable
  split
  · exact ⟨rfl, rfl⟩
  · exact ⟨getVal_setKey_ne _ _ _ _ h, hasOwn_setKey_ne _ _ _ _ h⟩

theorem conformsToDeckable_deckID (obj : YObj) :
    hasOwn (conformsToDeckable obj).2 "deckID" = true ∧
    (getVal (conformsToDeckable obj).2 "deckID").getD .nullV
      = (getVal obj "deckID").getD .nullV := by
  unfold conformsToDeckable
  split
  · next h => exact ⟨h, rfl⟩
  · next h =>
    refine ⟨hasOwn_setKey_self _ _ _, ?_⟩
    rw [getVal_setKey_self,
      getVal_none_of_not_hasOwn _ _ (Bool.not_eq_true _ |>.mp h)]
    rfl

theorem conformsToDefaultable_eq (obj : YObj) :
    conformsToDefaultable obj = (hasOwn obj "side", (conformsToDeckable obj).2) := by
  unfold conformsToDefaultable
  rcases hd : conformsToDeckable obj with ⟨ok, obj1⟩
  have hfst := conformsToDeckable_fst obj
  rw [hd] at hfst
  simp only at hfst
  subst hfst
  have hside : hasOwn obj1 "side" = hasOwn obj "side" := by
    have := (conformsToDeckable_keys obj "side" (by decide)).2
    rw [hd] at this
    exact this
  simp only [not_true, if_neg, if_false]
  by_cases hs : hasOwn obj1 "side" = true
  · rw [if_neg (by simp [hs]), ← hside, hs]
  · rw [if_pos (by simp [Bool.not_eq_true _ |>.mp hs]), ← hside,
      Bool.not_eq_true _ |>.mp hs]

/-! ### C9: what `parseCodeBlock` actually requires of `side` and `id` -/

/-- Concrete sources for C9: an invalid side with an id, a valid side without
an id, a numeric side with an id, and no side at all. -/
def c9Src : String := "```ct\nside: x\nid: aa\n```"

def c9bSrc : String := "```ct\nside: front\n```"

def c9cSrc : String := "```ct\nside: 1\nid: aa\n```"

def c9dSrc : String := "```ct\nid: aa\n```"

/-- Counterexample for C9: `parseCodeBlock` does NOT require the side value to
be one of `f`, `front`, `b`, `back` — `side: x` together with `id: aa` is
returned as a full `CardDeclaration` carrying the invalid side `x`, even
though `isSideValid` rejects that very value. (The conforms-to-card check only
tests that the `side` KEY is present; the value is validated later, in
`fullIDFromDeclaration`.) -/
theorem parseCodeBlock_accepts_invalid_side :
    parseCodeBlock c9Src
      = .ok ⟨some ⟨"aa", "x", .unique, .nullV, false⟩, [], []⟩ ∧
    isSideValidY (.str "x") = .ok false := by decide

/-- C9 (amended): after a successful YAML parse, `parseCodeBlock` dispatches
on key presence and value TYPE only, never on side validity: a string `side`
with a string `id` is returned as a declaration whose stored side is the
trimmed lower-cased value — whatever it is; a present `side` key (any value)
with a missing `id` goes to the incomplete callback together with its source
range (with the mutations `deckID := null` and `id := ""` applied); a
non-string `side` with a string `id` escapes as a thrown `TypeError`; and a
missing `side` key yields nothing at all. -/
theorem parseCodeBlock_side_id_dispatch (source : String) (loc : DeclarationRange)
    (obj : YObj) (errs : List YamlParseError)
    (hloc : contentOfCodeBlock source = some loc)
    (htry : tryParseYaml (declarationSlice source loc) = (some obj, errs)) :
    (∀ s i, getVal obj "side" = some (.str s) → getVal obj "id" = some (.str i) →
      parseCodeBlock source
        = .ok ⟨some ⟨i, strToLower (strTrim s), .unique,
            (getVal obj "deckID").getD .nullV, false⟩, errs, []⟩) ∧
    (hasOwn obj "side" = true → getVal obj "id" = none →
      parseCodeBlock source
        = .ok ⟨none, errs,
            [(setKey (conformsToDeckable obj).2 "id" (.str ""), loc)]⟩) ∧
    (∀ i, hasOwn obj "side" = true →
      (∀ s, getVal obj "side" ≠ some (.str s)) →
      getVal obj "id" = some (.str i) →
      parseCodeBlock source = .error "TypeError: side.trim is not a function") ∧
    (hasOwn obj "side" = false →
      parseCodeBlock source = .ok ⟨none, errs, []⟩) := by
  have hgid := (conformsToDeckable_keys obj "id" (by decide)).1
  have hgside := (conformsToDeckable_keys obj "side" (by decide)).1
  have hhside := (conformsToDeckable_keys obj "side" (by decide)).2
  refine ⟨?_, ?_, ?_, ?_⟩
  · intro s i hs hi
    have hside : hasOwn obj "side" = true := hasOwn_of_getVal_some obj _ _ hs
    have hdecl : conformsToDeclarable obj = (true, (conformsToDeckable obj).2) := by
      unfold conformsToDeclarable
      rw [conformsToDefaultable_eq, hside]
      simp only [eq_self_iff_true, not_true, if_false, hgid, hi]
    have hfp : CardDeclaration.fromParsed (conformsToDeckable obj).2
        = .ok ⟨i, strToLower (strTrim s), .unique,
            (getVal obj "deckID").getD .nullV, false⟩ := by
      unfold CardDeclaration.fromParsed
      rw [hgside, hs]
      simp only [Option.getD_some]
      rw [hgid, hi, (conformsToDeckable_deckID obj).2]
      rfl
    unfold parseCodeBlock
    rw [hloc]
    simp only [htry, hdecl, eq_self_iff_true, if_true, bind, Except.bind]
    rw [hfp]
  · intro hside hid
    have hdecl : conformsToDeclarable obj
        = (false, setKey (conformsToDeckable obj).2 "id" (.str "")) := by
      unfold conformsToDeclarable
      rw [conformsToDefaultable_eq, hside]
      simp only [eq_self_iff_true, not_true, if_false, hgid, hid]
    have hdef2 : conformsToDefaultable (setKey (conformsToDeckable obj).2 "id" (.str ""))
        = (true, setKey (conformsToDeckable obj).2 "id" (.str "")) := by
      rw [conformsToDefaultable_eq]
      have h1 : hasOwn (setKey (conformsToDeckable obj).2 "id" (.str "")) "side"
          = true := by
        rw [hasOwn_setKey_ne _ _ _ _ (by decide), hhside]
        exact hside
      have h2 : conformsToDeckable (setKey (conformsToDeckable obj).2 "id" (.str ""))
          = (true, setKey (conformsToDeckable obj).2 "id" (.str "")) := by
        unfold conformsToDeckable
        rw [if_pos (by
          rw [hasOwn_setKey_ne _ _ _ _ (by decide)]
          exact (conformsToDeckable_deckID obj).1)]
      rw [h1, h2]
    unfold parseCodeBlock
    rw [hloc]
    simp only [htry, hdecl, Bool.false_eq_true, if_false, hdef2,
      eq_self_iff_true, if_true]
  · intro i hside hnstr hi
    have hdecl : conformsToDeclarable obj = (true, (conformsToDeckable obj).2) := by
      unfold conformsToDeclarable
      rw [conformsToDefaultable_eq, hside]
      simp only [eq_self_iff_true, not_true, if_false, hgid, hi]
    obtain ⟨v, hv⟩ := getVal_isSome_of_hasOwn obj "side" hside
    have hfp : CardDeclaration.fromParsed (conformsToDeckable obj).2
        = .error "TypeError: side.trim is not a function" := by
      unfold CardDeclaration.fromParsed
      rw [hgside, hv]
      match v with
      | .str s => exact absurd hv (hnstr s)
      | .num n => rfl
      | .nullV => rfl
    unfold parseCodeBlock
    rw [hloc]
    simp only [htry, hdecl, eq_self_iff_true, if_true, bind, Except.bind]
    rw [hfp]
  · intro hside
    have hdecl : conformsToDeclarable obj = (false, (conformsToDeckable obj).2) := by
      unfold conformsToDeclarable
      rw [conformsToDefaultable_eq, hside]
      simp only [Bool.false_eq_true, not_false_eq_true, if_true]
    have hdeffst : (conformsToDefaultable (conformsToDeckable obj).2).1 = false := by
      rw [conformsToDefaultable_eq]
      show hasOwn (conformsToDeckable obj).2 "side" = false
      rw [hhside]
      exact hside
    unfold parseCodeBlock
    rw [hloc]
    rcases hd2 : conformsToDefaultable (conformsToDeckable obj).2 with ⟨okDef, obj2⟩
    rw [hd2] at hdeffst
    simp only at hdeffst
    subst hdeffst
    simp only [htry, hdecl, Bool.false_eq_true, if_false, hd2]

/-- Witness for C9: the four concrete code blocks instantiate the four
dispatch branches of the amended theorem. -/
theorem parseCodeBlock_side_id_dispatch_witness :
    ((contentOfCodeBlock c9Src = some ⟨6, 21⟩ ∧
      tryParseYaml (declarationSlice c9Src ⟨6, 21⟩)
        = (some [("side", .str "x"), ("id", .str "aa")], []) ∧
      getVal [("side", YVal.str "x"), ("id", YVal.str "aa")] "side"
        = some (.str "x") ∧
      getVal [("side", YVal.str "x"), ("id", YVal.str "aa")] "id"
        = some (.str "aa")) ∧
      parseCodeBlock c9Src
        = .ok ⟨some ⟨"aa", "x", .unique, .nullV, false⟩, [], []⟩) ∧
    ((contentOfCodeBlock c9bSrc = some ⟨6, 18⟩ ∧
      tryParseYaml (declarationSlice c9bSrc ⟨6, 18⟩)
        = (some [("side", .str "front")], []) ∧
      hasOwn [("side", YVal.str "front")] "side" = true ∧
      getVal [("side", YVal.str "front")] "id" = none) ∧
      parseCodeBlock c9bSrc
        = .ok ⟨none, [],
            [([("side", .str "front"), ("deckID", .nullV), ("id", .str "")],
              ⟨6, 18⟩)]⟩) ∧
    ((contentOfCodeBlock c9cSrc = some ⟨6, 21⟩ ∧
      tryParseYaml (declarationSlice c9cSrc ⟨6, 21⟩)
        = (some [("side", .num 1), ("id", .str "aa")], []) ∧
      hasOwn [("side", YVal.num 1), ("id", YVal.str "aa")] "side" = true) ∧
      parseCodeBlock c9cSrc = .error "TypeError: side.trim is not a function") ∧
    ((contentOfCodeBlock c9dSrc = some ⟨6, 13⟩ ∧
      tryParseYaml (declarationSlice c9dSrc ⟨6, 13⟩)
        = (some [("id", .str "aa")], []) ∧
      hasOwn [("id", YVal.str "aa")] "side" = false) ∧
      parseCodeBlock c9dSrc = .ok ⟨none, [], []⟩) :=
  ⟨⟨⟨by decide, by decide, by decide, by decide⟩,
    (parseCodeBlock_side_id_dispatch c9Src ⟨6, 21⟩
        [("side", .str "x"), ("id", .str "aa")] [] (by decide) (by decide)).1
      "x" "aa" (by decide) (by decide)⟩,
   ⟨⟨by decide, by decide, by decide, by decide⟩,
    (parseCodeBlock_side_id_dispatch c9bSrc ⟨6, 18⟩
        [("side", .str "front")] [] (by decide) (by decide)).2.1
      (by decide) (by decide)⟩,
   ⟨⟨by decide, by decide, by decide⟩,
    (parseCodeBlock_side_id_dispatch c9cSrc ⟨6, 21⟩
        [("side", .num 1), ("id", .str "aa")] [] (by decide) (by decide)).2.2.1
      "aa" (by decide)
      (by intro s h
          rw [show getVal [("side", YVal.num 1), ("id", YVal.str "aa")] "side"
              = some (.num 1) from rfl] at h
          exact Option.noConfusion h (fun hh => YVal.noConfusion hh))
      (by decide)⟩,
   ⟨⟨by decide, by decide, by decide⟩,
    (parseCodeBlock_side_id_dispatch c9dSrc ⟨6, 13⟩
        [("id", .str "aa")] [] (by decide) (by decide)).2.2.2
      (by decide)⟩⟩

/-! ### C7: serialization round trip -/

/-- Does the character list contain the `": "` separator pattern? -/
def containsSep : List Char → Bool
  | a :: b :: rest => (a = ':' && b = ' ') || containsSep (b :: rest)
  | _ => false

/-- A key that survives the lower-casing, trimming and line splitting of the
parse path unchanged. -/
def keyOK (k : String) : Bool :=
  decide (trimCh k.data = k.data) && decide (k.data.map Char.toLower = k.data) &&
  decide ('\n' ∉ k.data) && !(containsSep k.data)

/-- A value whose rendering survives the parse path unchanged (plain
non-numeric non-null lower-case strings, or null). -/
def valOK : YVal → Bool
  | .str s => decide (s ≠ "") && decide (s ≠ "null") && !(s.data.all Char.isDigit) &&
      decide (trimCh s.data = s.data) && decide (s.data.map Char.toLower = s.data) &&
      decide ('\n' ∉ s.data)
  | .num _ => false
  | .nullV => true

/-- A parsed declaration object that serialization can reproduce exactly:
stable keys and values, no duplicated keys. -/
def objOK (obj : YObj) : Bool :=
  obj.all (fun kv => keyOK kv.1 && valOK kv.2) && decide ((obj.map Prod.fst).Nodup)

/-- One serialized `key: value` line. -/
def lineOf (kv : String × YVal) : List Char :=
  kv.1.data ++ ':' :: ' ' :: kv.2.render.data

/-- The serialized text, line by line. -/
def linesOf (obj : YObj) : List Char :=
  obj.foldr (fun kv acc => lineOf kv ++ '\n' :: acc) []

theorem stringify_linesOf (obj : YObj) :
    stringifyYamlM obj = String.mk (linesOf obj) := by
  unfold stringifyYamlM linesOf
  congr 1

theorem valOK_render (v : YVal) (h : valOK v = true) :
    trimCh v.render.data = v.render.data ∧
    v.render.data.map Char.toLower = v.render.data ∧
    '\n' ∉ v.render.data ∧
    parseScalar (String.mk (trimCh v.render.data)) = v := by
  match v with
  | .str s =>
    simp only [valOK, Bool.and_eq_true, decide_eq_true_eq, Bool.not_eq_true'] at h
    obtain ⟨⟨⟨⟨⟨hne, hnull⟩, hdig⟩, htrim⟩, hlow⟩, hnl⟩ := h
    refine ⟨htrim, hlow, hnl, ?_⟩
    show parseScalar (String.mk (trimCh s.data)) = .str s
    rw [htrim]
    show parseScalar s = .str s
    unfold parseScalar
    rw [if_neg hnull, if_neg (by rintro ⟨-, hd⟩; rw [hd] at hdig; cases hdig)]
  | .num n => cases h
  | .nullV => refine ⟨by decide, by decide, by decide, by decide⟩

theorem keyOK_facts (k : String) (h : keyOK k = true) :
    trimCh k.data = k.data ∧ k.data.map Char.toLower = k.data ∧
    '\n' ∉ k.data ∧ containsSep k.data = false := by
  simp only [keyOK, Bool.and_eq_true, decide_eq_true_eq, Bool.not_eq_true'] at h
  exact ⟨h.1.1.1, h.1.1.2, h.1.2, h.2⟩

theorem splitFirstSep_line (k v : List Char) (h : containsSep k = false) :
    splitFirstSep (k ++ ':' :: ' ' :: v) = some (k, v) := by
  induction k with
  | nil =>
    show splitFirstSep (':' :: ' ' :: v) = some ([], v)
    unfold splitFirstSep
    rw [if_pos ⟨rfl, rfl⟩]
  | cons a k' ih =>
    match k' with
    | [] =>
      show splitFirstSep (a :: ':' :: ' ' :: v) = some ([a], v)
      unfold splitFirstSep
      rw [if_neg (by rintro ⟨-, hb⟩; cases hb)]
      rw [show splitFirstSep (':' :: ' ' :: v) = some ([], v) from by
        unfold splitFirstSep; rw [if_pos ⟨rfl, rfl⟩]]
      rfl
    | c :: k'' =>
      unfold containsSep at h
      obtain ⟨h1, htl⟩ := Bool.or_eq_false_iff.mp h
      have hsep : ¬ (a = ':' ∧ c = ' ') := by
        rintro ⟨ha, hc⟩
        rw [ha, hc] at h1
        simp at h1
      show splitFirstSep (a :: c :: (k'' ++ ':' :: ' ' :: v)) = some (a :: c :: k'', v)
      unfold splitFirstSep
      rw [if_neg hsep]
      have := ih htl
      rw [show (c :: k'') ++ ':' :: ' ' :: v = c :: (k'' ++ ':' :: ' ' :: v) from rfl] at this
      rw [this]
      rfl

theorem splitLinesCh_line (l rest : List Char) (h : '\n' ∉ l) :
    splitLinesCh (l ++ '\n' :: rest) = l :: splitLinesCh rest := by
  induction l with
  | nil =>
    show splitLinesCh ('\n' :: rest) = [] :: splitLinesCh rest
    conv_lhs => rw [splitLinesCh]
    rw [if_pos rfl]
  | cons c l' ih =>
    have hc : ¬ c = '\n' := fun hh => h (hh ▸ List.mem_cons_self c l')
    have ih' := ih (fun hm => h (List.mem_cons_of_mem c hm))
    show splitLinesCh (c :: (l' ++ '\n' :: rest)) = (c :: l') :: splitLinesCh rest
    conv_lhs => rw [splitLinesCh]
    rw [if_neg hc, ih']

theorem splitLinesCh_linesOf (obj : YObj)
    (h : ∀ kv ∈ obj, '\n' ∉ lineOf kv) :
    splitLinesCh (linesOf obj) = obj.map lineOf ++ [[]] := by
  induction obj with
  | nil => rfl
  | cons kv rest ih =>
    have h1 : linesOf (kv :: rest) = lineOf kv ++ '\n' :: linesOf rest := by
      unfold linesOf lineOf
      simp only [List.foldr_cons, List.cons_append, List.append_assoc]
    rw [h1, splitLinesCh_line _ _ (h kv (List.mem_cons_self kv rest)),
      ih (fun kv2 hm => h kv2 (List.mem_cons_of_mem kv hm))]
    rfl

theorem lineOf_not_blank (kv : String × YVal) :
    (lineOf kv).all Char.isWhitespace = false := by
  rw [Bool.eq_false_iff]
  intro hall
  have hmem : ':' ∈ lineOf kv := by
    unfold lineOf
    exact List.mem_append_right _ (List.mem_cons_self _ _)
  have := List.all_eq_true.mp hall ':' hmem
  cases this

theorem map_toLower_linesOf (obj : YObj)
    (h : ∀ kv ∈ obj, kv.1.data.map Char.toLower = kv.1.data ∧
      kv.2.render.data.map Char.toLower = kv.2.render.data) :
    (linesOf obj).map Char.toLower = linesOf obj := by
  induction obj with
  | nil => rfl
  | cons kv rest ih =>
    have h1 : linesOf (kv :: rest) = lineOf kv ++ '\n' :: linesOf rest := by
      unfold linesOf lineOf
      simp only [List.foldr_cons, List.cons_append, List.append_assoc]
    rw [h1]
    obtain ⟨hk, hv⟩ := h kv (List.mem_cons_self kv rest)
    simp only [List.map_append, List.map_cons, lineOf, hk, hv,
      ih (fun kv2 hm => h kv2 (List.mem_cons_of_mem kv hm))]
    rfl

theorem foldl_setKey_append (obj : YObj) : ∀ acc : YObj,
    (∀ k ∈ obj.map Prod.fst, hasOwn acc k = false) →
    (obj.map Prod.fst).Nodup →
    obj.foldl (fun a kv => setKey a kv.1 kv.2) acc = acc ++ obj := by
  induction obj with
  | nil => intro acc _ _; simp
  | cons kv rest ih =>
    intro acc hfresh hnd
    rw [List.map_cons] at hnd
    have hnotin := (List.nodup_cons.mp hnd).1
    have hndrest := (List.nodup_cons.mp hnd).2
    have hk : hasOwn acc kv.1 = false :=
      hfresh kv.1 (by simp)
    have hstep : setKey acc kv.1 kv.2 = acc ++ [kv] := by
      unfold setKey
      rw [if_neg (by simp [hk])]
    simp only [List.foldl_cons, hstep]
    rw [ih (acc ++ [kv]) ?_ hndrest]
    · simp
    · intro k hkmem
      rw [hasOwn, List.any_append]
      have h1 : hasOwn acc k = false := hfresh k (by simp [hkmem])
      have h2 : ¬ kv.1 = k := fun hh => hnotin (hh ▸ hkmem)
      rw [hasOwn] at h1
      simp [h1, h2]

/-- Core round trip: serializing an `objOK` object and running it back through
the (lower-casing) parser reproduces it exactly. -/
theorem parseYamlM_stringify (obj : YObj) (hok : objOK obj = true)
    (hne : obj ≠ []) :
    parseYamlM (strToLower (stringifyYamlM obj)) = .ok (some obj) := by
  have hall := (Bool.and_eq_true _ _ |>.mp hok).1
  have hnd : (obj.map Prod.fst).Nodup :=
    decide_eq_true_eq.mp (Bool.and_eq_true _ _ |>.mp hok).2
  have hkv : ∀ kv ∈ obj, keyOK kv.1 = true ∧ valOK kv.2 = true := by
    intro kv hm
    have := List.all_eq_true.mp hall kv hm
    exact Bool.and_eq_true _ _ |>.mp this
  rw [stringify_linesOf]
  have hlower : strToLower (String.mk (linesOf obj)) = String.mk (linesOf obj) := by
    unfold strToLower
    congr 1
    exact map_toLower_linesOf obj (fun kv hm =>
      ⟨(keyOK_facts kv.1 (hkv kv hm).1).2.1, (valOK_render kv.2 (hkv kv hm).2).2.1⟩)
  rw [hlower]
  unfold parseYamlM
  have hsplit : splitLinesCh (String.mk (linesOf obj)).data
      = obj.map lineOf ++ [[]] := by
    refine splitLinesCh_linesOf obj (fun kv hm => ?_)
    unfold lineOf
    intro hmem
    rcases List.mem_append.mp hmem with hmk | hmv
    · exact (keyOK_facts kv.1 (hkv kv hm).1).2.2.1 hmk
    · rcases List.mem_cons.mp hmv with hc | hmv2
      · cases hc
      · rcases List.mem_cons.mp hmv2 with hc | hmv3
        · cases hc
        · exact (valOK_render kv.2 (hkv kv hm).2).2.2.1 hmv3
  rw [hsplit]
  have hfilter : ((obj.map lineOf) ++ [[]]).filter
      (fun l => decide (¬ l.all Char.isWhitespace = true)) = obj.map lineOf := by
    rw [List.filter_append]
    have h2 : ([([] : List Char)]).filter
        (fun l => decide (¬ l.all Char.isWhitespace = true)) = [] := by decide
    rw [h2, List.append_nil]
    apply List.filter_eq_self.mpr
    intro l hm
    obtain ⟨kv, _, hkveq⟩ := List.mem_map.mp hm
    rw [← hkveq]
    simp [lineOf_not_blank kv]
  rw [hfilter]
  have hfold : ∀ (sub : YObj), (∀ kv ∈ sub, keyOK kv.1 = true ∧ valOK kv.2 = true) →
      ∀ acc : YObj,
      List.foldlM (fun (acc : YObj) line =>
        match splitFirstSep line with
        | none => Except.error (⟨"YAMLParseError"⟩ : YamlParseError)
        | some (k, v) =>
          Except.ok (setKey acc (String.mk (trimCh k)) (parseScalar (String.mk (trimCh v)))))
        acc (sub.map lineOf)
      = .ok (sub.foldl (fun a kv => setKey a kv.1 kv.2) acc) := by
    intro sub hsub
    induction sub with
    | nil => intro acc; rfl
    | cons kv rest ih =>
      intro acc
      have hsep : splitFirstSep (lineOf kv) = some (kv.1.data, kv.2.render.data) :=
        splitFirstSep_line _ _
          (keyOK_facts kv.1 (hsub kv (List.mem_cons_self kv rest)).1).2.2.2
      have hkey : String.mk (trimCh kv.1.data) = kv.1 := by
        rw [(keyOK_facts kv.1 (hsub kv (List.mem_cons_self kv rest)).1).1]
      have hval : parseScalar (String.mk (trimCh kv.2.render.data)) = kv.2 :=
        (valOK_render kv.2 (hsub kv (List.mem_cons_self kv rest)).2).2.2.2
      simp only [List.map_cons, List.foldlM_cons, hsep, hkey, hval, bind, Except.bind]
      rw [ih (fun kv2 hm => hsub kv2 (List.mem_cons_of_mem kv hm))]
      rfl
  simp only [bind, Except.bind]
  rw [hfold obj hkv []]
  have hrebuild : obj.foldl (fun a kv => setKey a kv.1 kv.2) [] = obj := by
    have := foldl_setKey_append obj [] (fun k _ => rfl) hnd
    simpa using this
  rw [hrebuild]
  show (if obj.isEmpty = true then pure none else pure (some obj)
      : Except YamlParseError (Option YObj)) = Except.ok (some obj)
  rw [if_neg (by simpa [List.isEmpty_iff] using hne)]
  rfl

theorem getVal_deleteKey_ne (obj : YObj) (k0 k : String) (h : ¬ k = k0) :
    getVal (deleteKey obj k0) k = getVal obj k := by
  unfold deleteKey getVal
  induction obj with
  | nil => rfl
  | cons kv rest ih =>
    by_cases h0 : kv.1 = k0
    · rw [List.filter_cons_of_neg (by simp [h0])]
      rw [List.find?_cons_of_neg _ (by simp; exact fun hh => h (hh ▸ h0))]
      exact ih
    · rw [List.filter_cons_of_pos (by simp [h0])]
      by_cases hk : kv.1 = k
      · rw [List.find?_cons_of_pos _ (by simp [hk]),
          List.find?_cons_of_pos _ (by simp [hk])]
      · rw [List.find?_cons_of_neg _ (by simp [hk]),
          List.find?_cons_of_neg _ (by simp [hk])]
        exact ih

theorem hasOwn_deleteKey_ne (obj : YObj) (k0 k : String) (h : ¬ k = k0) :
    hasOwn (deleteKey obj k0) k = hasOwn obj k := by
  unfold deleteKey hasOwn
  induction obj with
  | nil => rfl
  | cons kv rest ih =>
    by_cases h0 : kv.1 = k0
    · rw [List.filter_cons_of_neg (by simp [h0])]
      have hne2 : (decide (kv.1 = k)) = false := by
        simp
        exact fun hh => h (hh ▸ h0)
      simp only [List.any_cons, hne2, Bool.false_or]
      exact ih
    · rw [List.filter_cons_of_pos (by simp [h0])]
      simp only [List.any_cons, ih]

/-- C7: serializing a parsed declaration and parsing it back preserves the
`id` and `side` values exactly; the internal `deckID` reappears as the
user-facing `deck` key precisely when it is set (truthy), carrying the same
value — which the re-parse maps back to `deckID` — and the serialized object
carries no `deck` key at all when `deckID` is unset. The hypotheses restrict
to objects whose keys/values survive the lower-casing flat `key: value`
serialization format unchanged (the shape `tryParseYaml` itself produces). -/
theorem declaration_serialization_roundtrip (obj : YObj)
    (hok : objOK (toUserFriendlyKeys obj) = true)
    (hne : toUserFriendlyKeys obj ≠ [])
    (hdk : hasOwn obj "deck" = false) :
    tryParseYaml (declarationToString obj)
      = (some (fromUserFriendlyKeys (toUserFriendlyKeys obj)), []) ∧
    getVal (fromUserFriendlyKeys (toUserFriendlyKeys obj)) "id" = getVal obj "id" ∧
    getVal (fromUserFriendlyKeys (toUserFriendlyKeys obj)) "side"
      = getVal obj "side" ∧
    hasOwn (toUserFriendlyKeys obj) "deck"
      = ((getVal obj "deckID").getD .nullV).truthy ∧
    (((getVal obj "deckID").getD .nullV).truthy = true →
      getVal (toUserFriendlyKeys obj) "deck" = getVal obj "deckID" ∧
      getVal (fromUserFriendlyKeys (toUserFriendlyKeys obj)) "deckID"
        = getVal obj "deckID") := by
  have h0 : tryParseYaml (declarationToString obj)
      = (some (fromUserFriendlyKeys (toUserFriendlyKeys obj)), []) := by
    unfold tryParseYaml declarationToString
    rw [parseYamlM_stringify _ hok hne]
  refine ⟨h0, ?_⟩
  by_cases hd : hasOwn obj "deckID" = true
  · obtain ⟨v, hv⟩ := getVal_isSome_of_hasOwn obj "deckID" hd
    by_cases htr : v.truthy = true
    · have hy : toUserFriendlyKeys obj
          = setKey (deleteKey obj "deckID") "deck" v := by
        simp only [toUserFriendlyKeys, hd, eq_self_iff_true, if_true, hv,
          Option.getD_some, htr]
      have hydeck : getVal (toUserFriendlyKeys obj) "deck" = some v := by
        rw [hy, getVal_setKey_self]
      have hz : fromUserFriendlyKeys (toUserFriendlyKeys obj)
          = setKey (deleteKey (toUserFriendlyKeys obj) "deck") "deckID" v := by
        simp only [fromUserFriendlyKeys]
        rw [if_pos (by rw [hy]; exact hasOwn_setKey_self _ _ _), hydeck]
        rfl
      have hother : ∀ k, ¬ k = "deck" → ¬ k = "deckID" →
          getVal (fromUserFriendlyKeys (toUserFriendlyKeys obj)) k
            = getVal obj k := by
        intro k hk1 hk2
        rw [hz, getVal_setKey_ne _ _ _ _ hk2, getVal_deleteKey_ne _ _ _ hk1, hy,
          getVal_setKey_ne _ _ _ _ hk1, getVal_deleteKey_ne _ _ _ hk2]
      refine ⟨hother "id" (by decide) (by decide),
        hother "side" (by decide) (by decide), ?_, ?_⟩
      · rw [hy, hasOwn_setKey_self, hv, Option.getD_some, htr]
      · intro _
        refine ⟨by rw [hydeck, hv], ?_⟩
        rw [hz, getVal_setKey_self, hv]
    · have htr' : v.truthy = false := Bool.not_eq_true _ |>.mp htr
      have hy : toUserFriendlyKeys obj = deleteKey obj "deckID" := by
        simp only [toUserFriendlyKeys, hd, eq_self_iff_true, if_true, hv,
          Option.getD_some, htr', Bool.false_eq_true, if_false]
      have hnodeck : hasOwn (toUserFriendlyKeys obj) "deck" = false := by
        rw [hy, hasOwn_deleteKey_ne _ _ _ (by decide)]
        exact hdk
      have hz : fromUserFriendlyKeys (toUserFriendlyKeys obj)
          = toUserFriendlyKeys obj := by
        simp only [fromUserFriendlyKeys, hnodeck, Bool.false_eq_true, if_false]
      refine ⟨?_, ?_, ?_, ?_⟩
      · rw [hz, hy, getVal_deleteKey_ne _ _ _ (by decide)]
      · rw [hz, hy, getVal_deleteKey_ne _ _ _ (by decide)]
      · rw [hnodeck, hv, Option.getD_some, htr']
      · intro hcon
        rw [hv, Option.getD_some, htr'] at hcon
        cases hcon
  · have hd' : hasOwn obj "deckID" = false := Bool.not_eq_true _ |>.mp hd
    have hy : toUserFriendlyKeys obj = obj := by
      simp only [toUserFriendlyKeys, hd', Bool.false_eq_true, if_false]
    have hz : fromUserFriendlyKeys (toUserFriendlyKeys obj) = obj := by
      rw [hy]
      simp only [fromUserFriendlyKeys, hdk, Bool.false_eq_true, if_false]
    have hnone : getVal obj "deckID" = none := getVal_none_of_not_hasOwn _ _ hd'
    refine ⟨by rw [hz], by rw [hz], ?_, ?_⟩
    · rw [hy, hnone, hdk]
      rfl
    · intro hcon
      rw [hnone] at hcon
      cases hcon

def c7Obj : YObj := [("side", .str "front"), ("id", .str "abc"), ("deckID", .str "d1")]

/-- Witness for C7: the declaration `{side: front, id: abc, deckID: d1}`
serializes to `side: front\nid: abc\ndeck: d1\n` and parses back with `id`,
`side` and `deckID` intact. -/
theorem declaration_serialization_roundtrip_witness :
    (objOK (toUserFriendlyKeys c7Obj) = true ∧ toUserFriendlyKeys c7Obj ≠ [] ∧
      hasOwn c7Obj "deck" = false) ∧
    (tryParseYaml (declarationToString c7Obj)
        = (some (fromUserFriendlyKeys (toUserFriendlyKeys c7Obj)), []) ∧
      getVal (fromUserFriendlyKeys (toUserFriendlyKeys c7Obj)) "id"
        = getVal c7Obj "id" ∧
      getVal (fromUserFriendlyKeys (toUserFriendlyKeys c7Obj)) "side"
        = getVal c7Obj "side" ∧
      hasOwn (toUserFriendlyKeys c7Obj) "deck"
        = ((getVal c7Obj "deckID").getD .nullV).truthy ∧
      (((getVal c7Obj "deckID").getD .nullV).truthy = true →
        getVal (toUserFriendlyKeys c7Obj) "deck" = getVal c7Obj "deckID" ∧
        getVal (fromUserFriendlyKeys (toUserFriendlyKeys c7Obj)) "deckID"
          = getVal c7Obj "deckID")) :=
  ⟨⟨by decide, by decide, by decide⟩,
   declaration_serialization_roundtrip c7Obj (by decide) (by decide) (by decide)⟩

/-! ### C3: characterization of `rangeForSection` -/

/-- The accumulated effect of the in-between callback over the visited
indices. -/
def inBetweenFold {σ : Type} (os : List CacheItem) (start : CacheItem)
    (step : σ → CacheItem → CacheItem → Nat → Nat → List CacheItem → σ)
    (base : Nat) (idxs : List Nat) (st : σ) : σ :=
  idxs.foldl (fun s q =>
    match os.get? q with
    | some d => step s start d (q - base) q os
    | none => s) st

/-- No candidate in the index window `[j, j+n)` satisfies the end predicate
(decidable form). -/
def noEndBefore (os : List CacheItem) (start : CacheItem)
    (endPred : CacheItem → CacheItem → Bool) (j n : Nat) : Bool :=
  (List.range' j n).all (fun q =>
    match os.get? q with
    | some d => !endPred start d
    | none => true)

theorem noEndBefore_spec (os : List CacheItem) (start : CacheItem)
    (endPred : CacheItem → CacheItem → Bool) (j n : Nat)
    (h : noEndBefore os start endPred j n = true) :
    ∀ q, j ≤ q → q < j + n → ∀ d, os.get? q = some d →
      endPred start d = false := by
  intro q h1 h2 d hd
  have hq := List.all_eq_true.mp h q (List.mem_range'_1.mpr ⟨h1, h2⟩)
  rw [hd] at hq
  simpa using hq

theorem findStartIdxAux_some (secEnd : Nat) (os : List CacheItem) :
    ∀ (n k : Nat), findStartIdxAux secEnd os n = some k →
      k < n ∧
      (∃ d, os.get? k = some d ∧ d.position.startOffset ≤ secEnd) ∧
      (∀ j, k < j → j < n → ∀ d, os.get? j = some d →
        d.position.startOffset > secEnd) := by
  intro n
  induction n with
  | zero => intro k h; cases h
  | succ n ih =>
    intro k h
    unfold findStartIdxAux at h
    match hg : os.get? n with
    | none =>
      simp only [hg] at h
      obtain ⟨h1, h2, h3⟩ := ih k h
      refine ⟨Nat.lt_succ_of_lt h1, h2, ?_⟩
      intro j hj1 hj2 d hd
      rcases Nat.lt_succ_iff_lt_or_eq.mp hj2 with hj | hj
      · exact h3 j hj1 hj d hd
      · rw [hj, hg] at hd; cases hd
    | some d =>
      simp only [hg] at h
      by_cases hgt : d.position.startOffset > secEnd
      · rw [if_pos hgt] at h
        obtain ⟨h1, h2, h3⟩ := ih k h
        refine ⟨Nat.lt_succ_of_lt h1, h2, ?_⟩
        intro j hj1 hj2 d2 hd2
        rcases Nat.lt_succ_iff_lt_or_eq.mp hj2 with hj | hj
        · exact h3 j hj1 hj d2 hd2
        · rw [hj, hg] at hd2
          injection hd2 with hd3
          rw [← hd3]
          exact hgt
      · rw [if_neg hgt] at h
        injection h with hk
        subst hk
        exact ⟨Nat.lt_succ_self _, ⟨d, hg, by omega⟩,
          fun j hj1 hj2 _ _ => absurd (Nat.lt_of_lt_of_le hj1 (Nat.lt_succ_iff.mp hj2)) (Nat.lt_irrefl _)⟩

theorem findStartIdxAux_none (secEnd : Nat) (os : List CacheItem) :
    ∀ (n : Nat), findStartIdxAux secEnd os n = none →
      ∀ j, j < n → ∀ d, os.get? j = some d →
        d.position.startOffset > secEnd := by
  intro n
  induction n with
  | zero => intro _ j hj; omega
  | succ n ih =>
    intro h j hj d hd
    unfold findStartIdxAux at h
    match hg : os.get? n with
    | none =>
      simp only [hg] at h
      rcases Nat.lt_succ_iff_lt_or_eq.mp hj with hj2 | hj2
      · exact ih h j hj2 d hd
      · rw [hj2, hg] at hd; cases hd
    | some d2 =>
      simp only [hg] at h
      by_cases hgt : d2.position.startOffset > secEnd
      · rw [if_pos hgt] at h
        rcases Nat.lt_succ_iff_lt_or_eq.mp hj with hj2 | hj2
        · exact ih h j hj2 d hd
        · rw [hj2, hg] at hd
          injection hd with hd2
          rw [← hd2]
          exact hgt
      · rw [if_neg hgt] at h; cases h

theorem rangeForSectionInner_finds {σ : Type} (os : List CacheItem)
    (start : CacheItem) (endPred : CacheItem → CacheItem → Bool)
    (step : σ → CacheItem → CacheItem → Nat → Nat → List CacheItem → σ)
    (base : Nat) :
    ∀ (fuel j : Nat) (st : σ) (p : Nat) (e : CacheItem),
      os.get? p = some e → endPred start e = true →
      j ≤ p → p < j + fuel →
      (∀ q, j ≤ q → q < p → ∀ d, os.get? q = some d → endPred start d = false) →
      rangeForSectionInner os start endPred step base j fuel st
        = (some e, inBetweenFold os start step base (List.range' j (p - j)) st) := by
  intro fuel
  induction fuel with
  | zero => intro j st p e _ _ h3 h4 _; omega
  | succ fuel ih =>
    intro j st p e hpe hpred h3 h4 hno
    by_cases hjp : j = p
    · subst hjp
      unfold rangeForSectionInner
      simp only [hpe]
      rw [if_pos hpred]
      have : List.range' j (j - j) = [] := by
        rw [Nat.sub_self]
        rfl
      rw [this]
      rfl
    · have hjlt : j < p := Nat.lt_of_le_of_ne h3 hjp
      have hplen : p < os.length := by
        by_contra hcon
        rw [List.get?_eq_none.mpr (by omega)] at hpe
        cases hpe
      obtain ⟨d, hd⟩ : ∃ d, os.get? j = some d := by
        match hx : os.get? j with
        | some d => exact ⟨d, rfl⟩
        | none =>
          have := List.get?_eq_none.mp hx
          omega
      have hpj : p - j = (p - (j + 1)) + 1 := by omega
      unfold rangeForSectionInner
      simp only [hd]
      rw [if_neg (by rw [hno j (Nat.le_refl j) hjlt d hd]; exact Bool.false_ne_true)]
      rw [ih (j + 1) _ p e hpe hpred (by omega) (by omega)
        (fun q hq1 hq2 d2 hd2 => hno q (by omega) hq2 d2 hd2)]
      rw [hpj]
      have : List.range' j ((p - (j + 1)) + 1) = j :: List.range' (j + 1) (p - (j + 1)) := rfl
      rw [this]
      unfold inBetweenFold
      rw [List.foldl_cons, hd]

theorem rangeForSectionInner_exhausts {σ : Type} (os : List CacheItem)
    (start : CacheItem) (endPred : CacheItem → CacheItem → Bool)
    (step : σ → CacheItem → CacheItem → Nat → Nat → List CacheItem → σ)
    (base : Nat) :
    ∀ (fuel j : Nat) (st : σ),
      fuel = os.length - j →
      (∀ q, j ≤ q → ∀ d, os.get? q = some d → endPred start d = false) →
      rangeForSectionInner os start endPred step base j fuel st
        = (none, inBetweenFold os start step base (List.range' j fuel) st) := by
  intro fuel
  induction fuel with
  | zero => intro j st _ _; rfl
  | succ fuel ih =>
    intro j st hfuel hno
    have hjlen : j < os.length := by omega
    obtain ⟨d, hd⟩ : ∃ d, os.get? j = some d := by
      match hx : os.get? j with
      | some d => exact ⟨d, rfl⟩
      | none =>
        have := List.get?_eq_none.mp hx
        omega
    unfold rangeForSectionInner
    simp only [hd]
    rw [if_neg (by rw [hno j (Nat.le_refl j) d hd]; exact Bool.false_ne_true)]
    rw [ih (j + 1) _ (by omega) (fun q hq d2 hd2 => hno q (by omega) d2 hd2)]
    have : List.range' j (fuel + 1) = j :: List.range' (j + 1) fuel := rfl
    rw [this]
    unfold inBetweenFold
    rw [List.foldl_cons, hd]

def c3Cache : CachedMetadata :=
  { headings := [⟨"A", 1, ⟨0, 4⟩⟩, ⟨"B", 2, ⟨5, 11⟩⟩, ⟨"C", 2, ⟨30, 36⟩⟩] }

/-- C3: `rangeForSection` picks as `start` the last delimiter (in start-offset
order) whose start offset is at most the section's end offset — when every
delimiter starts after the section, `start` (and `end`) is `null` and the
callback state is untouched; from the start index `i` it scans forward, feeds
every visited candidate to the callback with the zero-based position
`q - (i+1)`, and stops at the first candidate satisfying the end predicate,
which becomes `end`; when the predicate never fires the scan exhausts the list
and `end` is `null`. Concretely (via `headingRangeForSection`): a code block
after heading B (level 2) and before heading C (level 2) gets
`start=B, end=C`, and a block after the last heading gets
`start=C, end=null`. -/
theorem rangeForSection_spec :
    (∀ (σ : Type) (sect : SectionCache) (ds : List CacheItem)
      (endPred : CacheItem → CacheItem → Bool)
      (cb : Option (σ → CacheItem → CacheItem → Nat → Nat → List CacheItem → σ))
      (st : σ),
      findStartIdx sect.position.endOffset (sortItemsByOffset ds) = none →
      rangeForSection sect ds endPred cb st = (⟨none, none⟩, st)) ∧
    (∀ secEnd (os : List CacheItem) k, findStartIdx secEnd os = some k →
      k < os.length ∧
      (∃ d, os.get? k = some d ∧ d.position.startOffset ≤ secEnd) ∧
      (∀ j, k < j → j < os.length → ∀ d, os.get? j = some d →
        d.position.startOffset > secEnd)) ∧
    (∀ secEnd (os : List CacheItem), findStartIdx secEnd os = none →
      ∀ j, j < os.length → ∀ d, os.get? j = some d →
        d.position.startOffset > secEnd) ∧
    (∀ (σ : Type) (sect : SectionCache) (ds : List CacheItem)
      (endPred : CacheItem → CacheItem → Bool)
      (step : σ → CacheItem → CacheItem → Nat → Nat → List CacheItem → σ)
      (st : σ) (i p : Nat) (startD e : CacheItem),
      findStartIdx sect.position.endOffset (sortItemsByOffset ds) = some i →
      (sortItemsByOffset ds).get? i = some startD →
      (sortItemsByOffset ds).get? p = some e →
      endPred startD e = true →
      i + 1 ≤ p → p < (sortItemsByOffset ds).length →
      noEndBefore (sortItemsByOffset ds) startD endPred (i + 1) (p - (i + 1)) = true →
      rangeForSection sect ds endPred (some step) st
        = (⟨some startD, some e⟩,
           inBetweenFold (sortItemsByOffset ds) startD step (i + 1)
             (List.range' (i + 1) (p - (i + 1))) st)) ∧
    (∀ (σ : Type) (sect : SectionCache) (ds : List CacheItem)
      (endPred : CacheItem → CacheItem → Bool)
      (step : σ → CacheItem → CacheItem → Nat → Nat → List CacheItem → σ)
      (st : σ) (i : Nat) (startD : CacheItem),
      findStartIdx sect.position.endOffset (sortItemsByOffset ds) = some i →
      (sortItemsByOffset ds).get? i = some startD →
      noEndBefore (sortItemsByOffset ds) startD endPred (i + 1)
        ((sortItemsByOffset ds).length - (i + 1)) = true →
      rangeForSection sect ds endPred (some step) st
        = (⟨some startD, none⟩,
           inBetweenFold (sortItemsByOffset ds) startD step (i + 1)
             (List.range' (i + 1) ((sortItemsByOffset ds).length - (i + 1))) st)) ∧
    ((@headingRangeForSection Unit ⟨"code", ⟨12, 25⟩⟩ c3Cache none ()).1
      = ⟨some (.ofHeading ⟨"B", 2, ⟨5, 11⟩⟩), some (.ofHeading ⟨"C", 2, ⟨30, 36⟩⟩)⟩) ∧
    ((@headingRangeForSection Unit ⟨"code", ⟨40, 50⟩⟩ c3Cache none ()).1
      = ⟨some (.ofHeading ⟨"C", 2, ⟨30, 36⟩⟩), none⟩) := by
  refine ⟨?_, ?_, ?_, ?_, ?_, by decide, by decide⟩
  · intro σ sect ds endPred cb st hfind
    unfold rangeForSection
    simp only [hfind]
  · intro secEnd os k h
    have := findStartIdxAux_some secEnd os os.length k h
    exact this
  · intro secEnd os h j hj d hd
    exact findStartIdxAux_none secEnd os os.length h j hj d hd
  · intro σ sect ds endPred step st i p startD e hfind hget hpe hpred hple hplt hno
    unfold rangeForSection
    simp only [hfind, hget, Option.getD_some]
    rw [rangeForSectionInner_finds (sortItemsByOffset ds) startD endPred step (i + 1)
      ((sortItemsByOffset ds).length - (i + 1)) (i + 1) st p e hpe hpred hple
      (by
        have : i < (sortItemsByOffset ds).length := by
          by_contra hcon
          rw [List.get?_eq_none.mpr (by omega)] at hget
          cases hget
        omega)
      (fun q hq1 hq2 d hd =>
        noEndBefore_spec _ _ _ _ _ hno q hq1 (by omega) d hd)]
  · intro σ sect ds endPred step st i startD hfind hget hno
    unfold rangeForSection
    simp only [hfind, hget, Option.getD_some]
    rw [rangeForSectionInner_exhausts (sortItemsByOffset ds) startD endPred step (i + 1)
      ((sortItemsByOffset ds).length - (i + 1)) (i + 1) st rfl
      (fun q hq d hd => by
        have hqlt : q < (sortItemsByOffset ds).length := by
          by_contra hcon
          rw [List.get?_eq_none.mpr (by omega)] at hd
          cases hd
        exact noEndBefore_spec _ _ _ _ _ hno q hq (by omega) d hd)]

def c3Ds : List CacheItem := [.bare ⟨0, 4⟩, .bare ⟨5, 11⟩, .bare ⟨15, 18⟩, .bare ⟨30, 36⟩]

def c3Pred : CacheItem → CacheItem → Bool := fun _ e => decide (30 ≤ e.position.startOffset)

def c3Step : Nat → CacheItem → CacheItem → Nat → Nat → List CacheItem → Nat :=
  fun s _ _ num q _ => s + num + q

/-- Witness for C3: for a section ending at offset 14 among four delimiters,
the start is the delimiter at offset 5 (index 1), the candidate at offset 15
is visited by the callback, and the one at offset 30 satisfies the predicate
and becomes the end. -/
theorem rangeForSection_spec_witness :
    (findStartIdx 14 (sortItemsByOffset c3Ds) = some 1 ∧
     (sortItemsByOffset c3Ds).get? 1 = some (.bare ⟨5, 11⟩) ∧
     (sortItemsByOffset c3Ds).get? 3 = some (.bare ⟨30, 36⟩) ∧
     c3Pred (.bare ⟨5, 11⟩) (.bare ⟨30, 36⟩) = true ∧
     noEndBefore (sortItemsByOffset c3Ds) (.bare ⟨5, 11⟩) c3Pred 2 1 = true) ∧
    rangeForSection ⟨"code", ⟨12, 14⟩⟩ c3Ds c3Pred (some c3Step) 0
      = (⟨some (.bare ⟨5, 11⟩), some (.bare ⟨30, 36⟩)⟩,
         inBetweenFold (sortItemsByOffset c3Ds) (.bare ⟨5, 11⟩) c3Step 2
           (List.range' 2 1) 0) :=
  ⟨⟨by decide, by decide, by decide, by decide, by decide⟩,
   rangeForSection_spec.2.2.2.1 Nat ⟨"code", ⟨12, 14⟩⟩ c3Ds c3Pred c3Step 0 1 3
     (.bare ⟨5, 11⟩) (.bare ⟨30, 36⟩) (by decide) (by decide) (by decide)
     (by decide) (by decide) (by decide) (by decide)⟩

/-! ### C2: the alternate-headings strategy -/

def c2Text : List Char :=
  ("# P\n```ct\nname: ah\nlevel: 1\n```\n## H2a\n## H2b\n## H2c\n## H2d\n").data

def c2Cache : CachedMetadata :=
  { headings := [⟨"P", 1, ⟨0, 3⟩⟩, ⟨"H2a", 2, ⟨32, 38⟩⟩, ⟨"H2b", 2, ⟨39, 45⟩⟩,
      ⟨"H2c", 2, ⟨46, 52⟩⟩, ⟨"H2d", 2, ⟨53, 59⟩⟩]
    sections := [⟨"heading", ⟨0, 3⟩⟩, ⟨"code", ⟨4, 31⟩⟩, ⟨"heading", ⟨32, 38⟩⟩,
      ⟨"heading", ⟨39, 45⟩⟩, ⟨"heading", ⟨46, 52⟩⟩, ⟨"heading", ⟨53, 59⟩⟩] }

def c2CodeSect : SectionCache := ⟨"code", ⟨4, 31⟩⟩

/-- The four declarations the alternate-headings command generates for the
concrete document: front(H2a)/back(H2a)/front(H2c)/back(H2c), each ending at
the next heading at its level (or nothing, for the last). -/
def c2Expected : List GeneratedContentDeclaration :=
  [⟨⟨"H2a", "front", .note, .nullV, true⟩,
    ⟨some (.ofHeading ⟨"H2a", 2, ⟨32, 38⟩⟩), some (.ofHeading ⟨"H2b", 2, ⟨39, 45⟩⟩)⟩⟩,
   ⟨⟨"H2a", "back", .note, .nullV, true⟩,
    ⟨some (.ofHeading ⟨"H2b", 2, ⟨39, 45⟩⟩), some (.ofHeading ⟨"H2c", 2, ⟨46, 52⟩⟩)⟩⟩,
   ⟨⟨"H2c", "front", .note, .nullV, true⟩,
    ⟨some (.ofHeading ⟨"H2c", 2, ⟨46, 52⟩⟩), some (.ofHeading ⟨"H2d", 2, ⟨53, 59⟩⟩)⟩⟩,
   ⟨⟨"H2c", "back", .note, .nullV, true⟩,
    ⟨some (.ofHeading ⟨"H2d", 2, ⟨53, 59⟩⟩), none⟩⟩]

/-- C2: one `AlternateHeadingsParser.parse` step ignores every delimiter that
is not a heading exactly `parentLevel + level` deep; on a matching heading it
appends exactly one declaration — a front carrying the heading text as id when
the number of previously generated declarations is even, otherwise a back
reusing the id of the immediately preceding generated declaration — whose
range runs from that heading to `findNextHeading`, which yields only a later
delimiter that is a heading of level at most the current heading's own level
(and `null` when none exists). On the concrete document with four
sub-headings at the specified depth the full pipeline generates
front(H2a)/back(H2a)/front(H2c)/back(H2c) in that order. -/
theorem alternateHeadings_spec :
    (∀ (st : ParserState) (P : Nat) (d : CacheItem) (idx : Nat)
      (delims : List CacheItem),
      (∀ h, d = CacheItem.ofHeading h →
        isOnSpecifiedLevel st.commandable.level P h = false) →
      alternateHeadingsParse st P d idx delims = .ok st) ∧
    (∀ (st : ParserState) (P : Nat) (h : HeadingCache) (idx : Nat)
      (delims : List CacheItem),
      isOnSpecifiedLevel st.commandable.level P h = true →
      st.generatedDeclarations.length % 2 = 0 →
      alternateHeadingsParse st P (.ofHeading h) idx delims
        = .ok { st with generatedDeclarations := st.generatedDeclarations ++
            [⟨CardDeclaration.make h.heading "front" .note st.commandable.deckID true,
              ⟨some (.ofHeading h), findNextHeading h.level idx delims⟩⟩] }) ∧
    (∀ (st : ParserState) (P : Nat) (h : HeadingCache) (idx : Nat)
      (delims : List CacheItem) (g : GeneratedContentDeclaration),
      isOnSpecifiedLevel st.commandable.level P h = true →
      st.generatedDeclarations.length % 2 = 1 →
      st.generatedDeclarations.getLast? = some g →
      alternateHeadingsParse st P (.ofHeading h) idx delims
        = .ok { st with generatedDeclarations := st.generatedDeclarations ++
            [⟨CardDeclaration.make g.declaration.id "back" .note st.commandable.deckID true,
              ⟨some (.ofHeading h), findNextHeading h.level idx delims⟩⟩] }) ∧
    (∀ (lvl idx : Nat) (delims : List CacheItem) (e : CacheItem),
      findNextHeading lvl idx delims = some e →
      e ∈ delims.drop (idx + 1) ∧
      match e with
      | .ofHeading h2 => h2.level ≤ lvl
      | _ => False) ∧
    (getAutoDeclarationsFromSection c2CodeSect c2Cache "n.md" c2Text {}
      = .ok (c2Expected, {})) := by
  refine ⟨?_, ?_, ?_, ?_, by decide⟩
  · intro st P d idx delims hno
    match d with
    | .ofHeading h =>
      simp only [alternateHeadingsParse]
      rw [if_pos (by rw [hno h rfl]; exact Bool.false_ne_true)]
    | .ofSection s => rfl
    | .bare p => rfl
  · intro st P h idx delims hlvl heven
    simp only [alternateHeadingsParse]
    rw [if_neg (by rw [hlvl]; exact fun hh => hh rfl)]
    rw [if_pos heven]
    simp only [bind, Except.bind, pure, Except.pure]
    rw [decide_eq_true heven]
    unfold ParserState.generateDeclaration
    rfl
  · intro st P h idx delims g hlvl hodd hlast
    simp only [alternateHeadingsParse]
    rw [if_neg (by rw [hlvl]; exact fun hh => hh rfl)]
    rw [if_neg (by omega)]
    have hd : decide (st.generatedDeclarations.length % 2 = 0) = false := by
      rw [hodd]
      rfl
    have hlid : st.lastID = .ok g.declaration.id := by
      unfold ParserState.lastID
      rw [hlast]
    simp only [hlid, bind, Except.bind, hd]
    unfold ParserState.generateDeclaration
    rfl
  · intro lvl idx delims e hfind
    refine ⟨List.mem_of_find?_eq_some hfind, ?_⟩
    have hp := List.find?_some hfind
    match e with
    | .ofHeading h2 => simpa [ge_iff_le] using hp
    | .ofSection s => simp at hp
    | .bare p => simp at hp

def c2Delims : List CacheItem := c2Cache.headings.map .ofHeading

def c2St0 : ParserState :=
  ⟨.alternateHeadings, ⟨"alternate headings", 1, "horizontal rule", .nullV⟩, [], none⟩

def c2Gen0 : GeneratedContentDeclaration :=
  ⟨⟨"H2a", "front", .note, .nullV, true⟩,
   ⟨some (.ofHeading ⟨"H2a", 2, ⟨32, 38⟩⟩), some (.ofHeading ⟨"H2b", 2, ⟨39, 45⟩⟩)⟩⟩

def c2St1 : ParserState := { c2St0 with generatedDeclarations := [c2Gen0] }

/-- Witness for C2: starting from a fresh alternate-headings parser state, the
step on H2a generates the front with id `H2a`, and the step on H2b (with one
declaration generated) generates the back reusing `H2a`. -/
theorem alternateHeadings_spec_witness :
    (isOnSpecifiedLevel c2St0.commandable.level 1 ⟨"H2a", 2, ⟨32, 38⟩⟩ = true ∧
      c2St0.generatedDeclarations.length % 2 = 0 ∧
      alternateHeadingsParse c2St0 1 (.ofHeading ⟨"H2a", 2, ⟨32, 38⟩⟩) 1 c2Delims
        = .ok { c2St0 with generatedDeclarations := c2St0.generatedDeclarations ++
            [⟨CardDeclaration.make "H2a" "front" .note c2St0.commandable.deckID true,
              ⟨some (.ofHeading ⟨"H2a", 2, ⟨32, 38⟩⟩),
               findNextHeading 2 1 c2Delims⟩⟩] }) ∧
    (isOnSpecifiedLevel c2St1.commandable.level 1 ⟨"H2b", 2, ⟨39, 45⟩⟩ = true ∧
      c2St1.generatedDeclarations.length % 2 = 1 ∧
      c2St1.generatedDeclarations.getLast? = some c2Gen0 ∧
      alternateHeadingsParse c2St1 1 (.ofHeading ⟨"H2b", 2, ⟨39, 45⟩⟩) 2 c2Delims
        = .ok { c2St1 with generatedDeclarations := c2St1.generatedDeclarations ++
            [⟨CardDeclaration.make c2Gen0.declaration.id "back" .note
                c2St1.commandable.deckID true,
              ⟨some (.ofHeading ⟨"H2b", 2, ⟨39, 45⟩⟩),
               findNextHeading 2 2 c2Delims⟩⟩] }) :=
  ⟨⟨by decide, by decide,
    alternateHeadings_spec.2.1 c2St0 1 ⟨"H2a", 2, ⟨32, 38⟩⟩ 1 c2Delims
      (by decide) (by decide)⟩,
   ⟨by decide, by decide, by decide,
    alternateHeadings_spec.2.2.1 c2St1 1 ⟨"H2b", 2, ⟨39, 45⟩⟩ 2 c2Delims c2Gen0
      (by decide) (by decide) (by decide)⟩⟩

/-! ### The three likelihood classes of `getAllFilesSortedByLikelihood` -/

def isTargetFile (id : FullID) (f : VaultFile) : Bool := decide (f.path = id.noteID)

def isHintFile (id : FullID) (hints : List String) (f : VaultFile) : Bool :=
  !(isTargetFile id f) && hints.contains f.path

def isOtherFile (id : FullID) (hints : List String) (f : VaultFile) : Bool :=
  !(isTargetFile id f) && !(hints.contains f.path)

theorem bnot_true {b : Bool} (h : (!b) = true) : b = false := by
  cases b
  · rfl
  · cases h

theorem likelihood_target_le (id : FullID) (hints : List String) (x y : VaultFile)
    (hx : isTargetFile id x = true) : likelihoodComparator id hints x y ≤ 0 := by
  unfold likelihoodComparator
  rw [if_pos (of_decide_eq_true hx)]
  decide

theorem likelihood_nontarget_target (id : FullID) (hints : List String)
    (x y : VaultFile) (hx : isTargetFile id x = false)
    (hy : isTargetFile id y = true) : 0 < likelihoodComparator id hints x y := by
  unfold likelihoodComparator
  rw [if_neg (of_decide_eq_false hx), if_pos (of_decide_eq_true hy)]
  decide

theorem likelihood_hint_le (id : FullID) (hints : List String) (x y : VaultFile)
    (hx : isHintFile id hints x = true) (hy : isTargetFile id y = false) :
    likelihoodComparator id hints x y ≤ 0 := by
  obtain ⟨hx1, hx2⟩ := Bool.and_eq_true _ _ |>.mp hx
  unfold likelihoodComparator
  rw [if_neg (of_decide_eq_false (bnot_true hx1)),
    if_neg (of_decide_eq_false hy), if_pos hx2]
  decide

theorem likelihood_other_hint (id : FullID) (hints : List String) (x y : VaultFile)
    (hx : isOtherFile id hints x = true) (hy : isHintFile id hints y = true) :
    0 < likelihoodComparator id hints x y := by
  obtain ⟨hx1, hx2⟩ := Bool.and_eq_true _ _ |>.mp hx
  obtain ⟨hy1, hy2⟩ := Bool.and_eq_true _ _ |>.mp hy
  unfold likelihoodComparator
  rw [if_neg (of_decide_eq_false (bnot_true hx1)),
    if_neg (of_decide_eq_false (bnot_true hy1)),
    if_neg (by simpa using bnot_true hx2), if_pos hy2]
  decide

theorem likelihood_other_other (id : FullID) (hints : List String) (x y : VaultFile)
    (hx : isOtherFile id hints x = true) (hy : isOtherFile id hints y = true) :
    likelihoodComparator id hints x y ≤ 0 := by
  obtain ⟨hx1, hx2⟩ := Bool.and_eq_true _ _ |>.mp hx
  obtain ⟨hy1, hy2⟩ := Bool.and_eq_true _ _ |>.mp hy
  unfold likelihoodComparator
  rw [if_neg (of_decide_eq_false (bnot_true hx1)),
    if_neg (of_decide_eq_false (bnot_true hy1)),
    if_neg (by simpa using bnot_true hx2),
    if_neg (by simpa using bnot_true hy2)]

theorem insertFile_append (id : FullID) (hints : List String) (x : VaultFile)
    (A B : List VaultFile) (h : ∀ y ∈ A, 0 < likelihoodComparator id hints x y) :
    insertFileByLikelihood id hints x (A ++ B)
      = A ++ insertFileByLikelihood id hints x B := by
  induction A with
  | nil => rfl
  | cons y A' ih =>
    have hy := h y (List.mem_cons_self y A')
    show insertFileByLikelihood id hints x (y :: (A' ++ B)) = _
    conv_lhs => rw [insertFileByLikelihood]
    rw [if_neg (by omega), ih (fun z hz => h z (List.mem_cons_of_mem y hz))]
    rfl

theorem insertFile_front (id : FullID) (hints : List String) (x : VaultFile)
    (L : List VaultFile) (h : ∀ y ∈ L, likelihoodComparator id hints x y ≤ 0) :
    insertFileByLikelihood id hints x L = x :: L := by
  cases L with
  | nil => rfl
  | cons y ys =>
    conv_lhs => rw [insertFileByLikelihood]
    rw [if_pos (h y (List.mem_cons_self y ys))]

/-- The order `getAllFilesSortedByLikelihood` produces: the files whose path
is the requested note id first, then the hinted files, then the rest — each
class in its original relative order. -/
theorem sortedByLikelihood_structure (id : FullID) (hints : List String) :
    ∀ files, getAllFilesSortedByLikelihood id files hints
      = files.filter (isTargetFile id) ++ files.filter (isHintFile id hints)
        ++ files.filter (isOtherFile id hints) := by
  intro files
  induction files with
  | nil => rfl
  | cons x xs ih =>
    show insertFileByLikelihood id hints x (getAllFilesSortedByLikelihood id xs hints) = _
    rw [ih]
    by_cases hT : isTargetFile id x = true
    · rw [insertFile_front _ _ _ _ (fun y _ => likelihood_target_le id hints x y hT)]
      rw [List.filter_cons_of_pos (by simpa using hT),
        List.filter_cons_of_neg (by simp [isHintFile, hT]),
        List.filter_cons_of_neg (by simp [isOtherFile, hT])]
      rfl
    · have hT' : isTargetFile id x = false := Bool.not_eq_true _ |>.mp hT
      by_cases hH : isHintFile id hints x = true
      · rw [List.append_assoc]
        rw [insertFile_append _ _ _ _ _ (fun y hy =>
          likelihood_nontarget_target id hints x y hT'
            (List.of_mem_filter hy))]
        rw [insertFile_front _ _ _ _ (fun y hy => by
          rcases List.mem_append.mp hy with hyH | hyO
          · exact likelihood_hint_le id hints x y hH
              (by
                have := List.of_mem_filter hyH
                exact bnot_true (Bool.and_eq_true _ _ |>.mp this).1)
          · exact likelihood_hint_le id hints x y hH
              (by
                have := List.of_mem_filter hyO
                exact bnot_true (Bool.and_eq_true _ _ |>.mp this).1))]
        rw [List.filter_cons_of_neg (by simpa using hT'),
          List.filter_cons_of_pos (by simpa using hH),
          List.filter_cons_of_neg (by
            obtain ⟨-, hx2⟩ := Bool.and_eq_true _ _ |>.mp hH
            intro hcon
            have h2 := (Bool.and_eq_true _ _ |>.mp hcon).2
            rw [hx2] at h2
            cases h2)]
        simp
      · have hO : isOtherFile id hints x = true := by
          have hc : hints.contains x.path = false := by
            cases hcc : hints.contains x.path
            · rfl
            · exact absurd (show isHintFile id hints x = true by
                show (!(isTargetFile id x) && hints.contains x.path) = true
                rw [hT', hcc]
                rfl) hH
          show (!(isTargetFile id x) && !(hints.contains x.path)) = true
          rw [hT', hc]
          rfl
        rw [insertFile_append _ _ _ _ _ (fun y hy => by
          rcases List.mem_append.mp hy with hyT | hyH
          · exact likelihood_nontarget_target id hints x y hT'
              (List.of_mem_filter hyT)
          · exact likelihood_other_hint id hints x y hO (List.of_mem_filter hyH))]
        rw [insertFile_front _ _ _ _ (fun y hy =>
          likelihood_other_other id hints x y hO (List.of_mem_filter hy))]
        rw [List.filter_cons_of_neg (by simpa using hT'),
          List.filter_cons_of_neg (by simpa using Bool.not_eq_true _ |>.mp hH),
          List.filter_cons_of_pos (by simpa using hO)]

/-- Re-sorting the already-sorted file list changes nothing (the in-place
`sort` of a prior call does not alter a later call's result). -/
theorem sortedByLikelihood_idempotent (id : FullID) (hints : List String)
    (files : List VaultFile) :
    getAllFilesSortedByLikelihood id (getAllFilesSortedByLikelihood id files hints) hints
      = getAllFilesSortedByLikelihood id files hints := by
  rw [sortedByLikelihood_structure, sortedByLikelihood_structure]
  have hself : ∀ (p : VaultFile → Bool) (l : List VaultFile),
      (∀ y ∈ l, p y = true) → l.filter p = l := fun p l h =>
    List.filter_eq_self.mpr h
  have hnil : ∀ (p : VaultFile → Bool) (l : List VaultFile),
      (∀ y ∈ l, p y = false) → l.filter p = [] := fun p l h =>
    List.filter_eq_nil_iff.mpr (fun a ha => by rw [h a ha]; exact Bool.false_ne_true)
  have hHnotT : ∀ y, isHintFile id hints y = true → isTargetFile id y = false :=
    fun y hy => bnot_true (Bool.and_eq_true _ _ |>.mp hy).1
  have hOnotT : ∀ y, isOtherFile id hints y = true → isTargetFile id y = false :=
    fun y hy => bnot_true (Bool.and_eq_true _ _ |>.mp hy).1
  have hTnotH : ∀ y, isTargetFile id y = true → isHintFile id hints y = false := by
    intro y hy
    show (!(isTargetFile id y) && hints.contains y.path) = false
    rw [hy]
    rfl
  have hTnotO : ∀ y, isTargetFile id y = true → isOtherFile id hints y = false := by
    intro y hy
    show (!(isTargetFile id y) && !(hints.contains y.path)) = false
    rw [hy]
    rfl
  have hOnotH : ∀ y, isOtherFile id hints y = true → isHintFile id hints y = false := by
    intro y hy
    obtain ⟨hy1, hy2⟩ := Bool.and_eq_true _ _ |>.mp hy
    show (!(isTargetFile id y) && hints.contains y.path) = false
    rw [bnot_true hy2]
    exact Bool.and_false _
  have hHnotO : ∀ y, isHintFile id hints y = true → isOtherFile id hints y = false := by
    intro y hy
    obtain ⟨hy1, hy2⟩ := Bool.and_eq_true _ _ |>.mp hy
    show (!(isTargetFile id y) && !(hints.contains y.path)) = false
    rw [hy2]
    exact Bool.and_false _
  simp only [List.filter_append]
  rw [hself (isTargetFile id) (files.filter (isTargetFile id))
      (fun y hy => List.of_mem_filter hy),
    hnil (isTargetFile id) (files.filter (isHintFile id hints))
      (fun y hy => hHnotT y (List.of_mem_filter hy)),
    hnil (isTargetFile id) (files.filter (isOtherFile id hints))
      (fun y hy => hOnotT y (List.of_mem_filter hy)),
    hnil (isHintFile id hints) (files.filter (isTargetFile id))
      (fun y hy => hTnotH y (List.of_mem_filter hy)),
    hself (isHintFile id hints) (files.filter (isHintFile id hints))
      (fun y hy => List.of_mem_filter hy),
    hnil (isHintFile id hints) (files.filter (isOtherFile id hints))
      (fun y hy => hOnotH y (List.of_mem_filter hy)),
    hnil (isOtherFile id hints) (files.filter (isTargetFile id))
      (fun y hy => hTnotO y (List.of_mem_filter hy)),
    hnil (isOtherFile id hints) (files.filter (isHintFile id hints))
      (fun y hy => hHnotO y (List.of_mem_filter hy)),
    hself (isOtherFile id hints) (files.filter (isOtherFile id hints))
      (fun y hy => List.of_mem_filter hy)]
  simp

/-- C8: extraction and resolution are deterministic functions of their inputs
in this embedding, and the one place the JS code mutates a shared array — the
in-place sorts — cannot change a later run's result: extracting against the
pre-sorted exclusion list equals extracting against the original list, the
likelihood sort is idempotent, and resolving over the vault list already
mutated (sorted) by a previous `getCard` run returns the identical typed
result, byte for byte. -/
theorem extraction_resolution_deterministic :
    (∀ (text : List Char) (rs : List ContentRange),
      subStringExcludingRanges text (sortRangesByStart rs)
        = subStringExcludingRanges text rs) ∧
    (∀ (id : FullID) (hints : List String) (files : List VaultFile),
      getAllFilesSortedByLikelihood id
        (getAllFilesSortedByLikelihood id files hints) hints
        = getAllFilesSortedByLikelihood id files hints) ∧
    (∀ (id : FullID) (files : List VaultFile) (options : Option ParseOptions),
      getCard id (getAllFilesSortedByLikelihood id files
          ((options.bind (fun o => o.likelyNoteIDs)).getD [])) options
        = getCard id files options) ∧
    (∀ (text : List Char) (info : IdentifiedContentInfo)
      (infos : List IdentifiedContentInfo) (options : Option ParseOptions),
      getContentFromInfo text info infos options
        = getContentFromInfo text info infos options) := by
  refine ⟨?_, fun id hints files => sortedByLikelihood_idempotent id hints files,
    ?_, fun _ _ _ _ => rfl⟩
  · intro text rs
    unfold subStringExcludingRanges
    rw [length_sortRangesByStart, sortRangesByStart_idempotent]
  · intro id files options
    simp only [getCard]
    rw [sortedByLikelihood_idempotent]

/-! ### C4: scan order, early stop and retention of `getCard` -/

def c4FileA : VaultFile :=
  { path := "noteA.md"
    content := ("# Q\n```ct\nside: front\nid: card9\n```\nFront text\n").data
    cache := some
      { headings := [⟨"Q", 1, ⟨0, 3⟩⟩]
        sections := [⟨"heading", ⟨0, 3⟩⟩, ⟨"code", ⟨4, 35⟩⟩, ⟨"paragraph", ⟨36, 46⟩⟩] } }

def c4FileB : VaultFile :=
  { path := "noteB.md"
    content := ("# A\n```ct\nside: back\nid: card9\n```\nBack text\n").data
    cache := some
      { headings := [⟨"A", 1, ⟨0, 3⟩⟩]
        sections := [⟨"heading", ⟨0, 3⟩⟩, ⟨"code", ⟨4, 34⟩⟩, ⟨"paragraph", ⟨35, 45⟩⟩] } }

def c4FileU : VaultFile :=
  { path := "u.md"
    content := ("x\n").data
    cache := some { sections := [⟨"paragraph", ⟨0, 1⟩⟩] } }

def c4ID : FullID := { noteID := "noteA.md", cardID := "card9", cardSide := none }

def c4Opts : ParseOptions := { likelyNoteIDs := some ["noteB.md"] }

/-- The complete card `getCard` resolves in the two-file scenario: the front
found in `noteA.md` (scanned first) is retained after the scan continues into
`noteB.md` for the back. -/
def c4Card : MaybeParsedCard :=
  { frontID := some ⟨"noteA.md", "card9", some "f", []⟩
    frontMarkdown := some ("# Q\n\nFront text\n").data
    backID := some ⟨"noteB.md", "card9", some "b", []⟩
    backMarkdown := some ("# A\n\nBack text\n").data }

def c4AccA : ParseResult :=
  match getContentFromFile c4FileA [] (some (getCardPredicate c4ID)) (some c4Opts) with
  | .ok r => r
  | .error _ => []

def c4AccB : ParseResult :=
  match getContentFromFile c4FileB c4AccA (some (getCardPredicate c4ID)) (some c4Opts) with
  | .ok r => r
  | .error _ => []

/-- C4: `getCard` scans the vault strictly one file at a time in likelihood
order — the files whose path equals the requested id's note first, then the
hinted files, then the rest, each class in original order; the loop stops as
soon as the file just read leaves a complete entry for the requested card id
(the remaining files are never consulted: the result does not depend on
them); `isDone` fires only on a complete card, comparing by card id alone for
`Unique`-scope ids and side-insensitively (which requires the same note and
the same card id) for `NoteScoped` ids; and concretely, with the front in
`noteA.md`, the back in `noteB.md` and `likelyNoteIDs = [noteB.md]`, the vault
`[u.md, noteB.md, noteA.md]` is scanned as `[noteA.md, noteB.md, u.md]` and
the front found in the earlier file is retained in the final complete
result. -/
theorem getCard_scan_order_stop_retention :
    (∀ (id : FullID) (hints : List String) (files : List VaultFile),
      getAllFilesSortedByLikelihood id files hints
        = files.filter (isTargetFile id) ++ files.filter (isHintFile id hints)
          ++ files.filter (isOtherFile id hints)) ∧
    (∀ (cardID : String) (pred : Option PopulationPredicate)
      (opts : Option ParseOptions) (file : VaultFile) (rest : List VaultFile)
      (acc r' : ParseResult),
      getContentFromFile file acc pred opts = .ok r' →
      prHasOwn r' cardID = true →
      isComplete ((prGet r' cardID).getD {}) = true →
      getCardLoop cardID pred opts (file :: rest) acc = .ok r') ∧
    (∀ (id : FullID) (info : IdentifiedContentInfo) (card : MaybeParsedCard),
      (isComplete card = false →
        ((getCardPredicate id).isDone.getD (fun _ _ => false)) info card = false) ∧
      (info.scope = .unique →
        ((getCardPredicate id).isDone.getD (fun _ _ => false)) info card
          = (isComplete card &&
             (card.frontID.getD ⟨"", "", none, []⟩).isCardEqual id)) ∧
      (info.scope = .note →
        ((getCardPredicate id).isDone.getD (fun _ _ => false)) info card
          = (isComplete card &&
             (card.frontID.getD ⟨"", "", none, []⟩).isEqualSideInsensitiveB id))) ∧
    (∀ a b : FullID,
      a.isCardEqual b = decide (a.cardID = b.cardID) ∧
      (a.isEqualSideInsensitiveB b = true →
        a.isNoteEqual b = true ∧ a.isCardEqual b = true)) ∧
    (getAllFilesSortedByLikelihood c4ID [c4FileU, c4FileB, c4FileA] ["noteB.md"]
      = [c4FileA, c4FileB, c4FileU]) ∧
    (getCard c4ID [c4FileU, c4FileB, c4FileA] (some c4Opts)
      = .ok ⟨some c4Card, none⟩) := by
  refine ⟨sortedByLikelihood_structure, ?_, ?_, ?_, by decide, by decide⟩
  · intro cardID pred opts file rest acc r' hr h1 h2
    show (do
      let parseResult ← getContentFromFile file acc pred opts
      if prHasOwn parseResult cardID ∧ isComplete ((prGet parseResult cardID).getD {}) then
        .ok parseResult
      else getCardLoop cardID pred opts rest parseResult) = .ok r'
    simp only [bind, Except.bind, hr]
    rw [if_pos ⟨h1, h2⟩]
  · intro id info card
    refine ⟨?_, ?_, ?_⟩
    · intro hc
      show (if ¬ isComplete card then false
        else match info.scope with
        | .unique => (card.frontID.getD {noteID := "", cardID := "", cardSide := none}).isCardEqual id
        | .note => (card.frontID.getD {noteID := "", cardID := "", cardSide := none}).isEqualSideInsensitiveB id) = false
      rw [if_pos (by rw [hc]; exact Bool.false_ne_true)]
    · intro hs
      show (if ¬ isComplete card then false
        else match info.scope with
        | .unique => (card.frontID.getD {noteID := "", cardID := "", cardSide := none}).isCardEqual id
        | .note => (card.frontID.getD {noteID := "", cardID := "", cardSide := none}).isEqualSideInsensitiveB id) = _
      by_cases hcomp : isComplete card = true
      · rw [if_neg (by rw [hcomp]; exact fun hh => hh rfl), hcomp]
        simp only [hs, Bool.true_and]
      · have hc' : isComplete card = false := Bool.not_eq_true _ |>.mp hcomp
        rw [if_pos (by rw [hc']; exact Bool.false_ne_true), hc']
        rfl
    · intro hs
      show (if ¬ isComplete card then false
        else match info.scope with
        | .unique => (card.frontID.getD {noteID := "", cardID := "", cardSide := none}).isCardEqual id
        | .note => (card.frontID.getD {noteID := "", cardID := "", cardSide := none}).isEqualSideInsensitiveB id) = _
      by_cases hcomp : isComplete card = true
      · rw [if_neg (by rw [hcomp]; exact fun hh => hh rfl), hcomp]
        simp only [hs, Bool.true_and]
      · have hc' : isComplete card = false := Bool.not_eq_true _ |>.mp hcomp
        rw [if_pos (by rw [hc']; exact Bool.false_ne_true), hc']
        rfl
  · intro a b
    refine ⟨rfl, ?_⟩
    intro h
    unfold FullID.isEqualSideInsensitiveB at h
    simp only [Bool.and_eq_true, decide_eq_true_eq] at h
    exact ⟨h.1.2, h.2⟩

/-- Witness for C4: after reading `noteA.md` (front found, entry incomplete)
the loop reads `noteB.md`, the entry for `card9` becomes complete, and the
loop stops — the result is independent of the unrelated `u.md` still in the
queue. -/
theorem getCard_scan_order_stop_retention_witness :
    (getContentFromFile c4FileB c4AccA (some (getCardPredicate c4ID)) (some c4Opts)
        = .ok c4AccB ∧
      prHasOwn c4AccB "card9" = true ∧
      isComplete ((prGet c4AccB "card9").getD {}) = true) ∧
    getCardLoop "card9" (some (getCardPredicate c4ID)) (some c4Opts)
      (c4FileB :: [c4FileU]) c4AccA = .ok c4AccB :=
  ⟨⟨by decide, by decide, by decide⟩,
   getCard_scan_order_stop_retention.2.1 "card9" (some (getCardPredicate c4ID))
     (some c4Opts) c4FileB [c4FileU] c4AccA c4AccB (by decide) (by decide) (by decide)⟩

end CT
